import Mathlib

/-!
# QA-System: answer-sheet deduplication and survey statistics

A shallow embedding of

* `internal/dao/answer.go`: `contains`, `SaveAnswerSheet`;
* `internal/handler/user/user.go`: the statistics part of `GetSurveyStatistics`
  (empty-sheet branch, option counting, per-question assembly, ranking), `ensureMap`, and the
  time and status checks of `SubmitSurvey` and `GetSurvey`.

Go `int` values are `Int`. Go strings are `String`; `strings.Split(s, "┋")` splits at every
occurrence of the one-rune separator. Go maps are association lists in insertion order with
unique keys (`GoMap`); a lookup of a missing key yields the zero value passed to `GoMap.getD`.
The database-backed services of the handler (`GetQuestionsBySurveyID`,
`GetOptionsByQuestionID`, `GetSurveyAnswersBySurveyID`) are inputs: a list of questions, a
function from question ID to options and a list of answer sheets; a failing service call aborts
the handler before any statistics are produced, so the definitions describe the run in which
the calls succeed. The MongoDB collection used by the DAO is an abstract `Collection` whose
operations may fail; the sequential claims are stated over the in-memory collection
`memCollection`.
-/

/-! ## Data model -/

namespace dao

/-- `dao.Answer`. -/
structure Answer where
  QuestionID : Int
  SerialNum : Int
  Subject : String
  Content : String
deriving DecidableEq, Repr

/-- `dao.AnswerSheet`. -/
structure AnswerSheet where
  SurveyID : Int
  Time : String
  Unique : Bool
  Answers : List Answer
deriving DecidableEq, Repr

end dao

/-- Modelled from the spec: `model.Question` is declared outside the given sources; the fields
are the ones the spec lists in its data model, named as `GetSurveyStatistics` uses them. -/
structure model.Question where
  ID : Int
  SurveyID : Int
  SerialNum : Int
  Subject : String
  QuestionType : Int
  OtherOption : Bool
deriving DecidableEq, Repr

/-- Modelled from the spec: `model.Option` is declared outside the given sources; the fields are
the ones the spec lists in its data model, named as `GetSurveyStatistics` uses them. -/
structure model.Option where
  QuestionID : Int
  SerialNum : Int
  Content : String
deriving DecidableEq, Repr

/-- Go zero value of `model.Question`, what a map lookup of a missing key returns. -/
def model.Question.zero : model.Question := ⟨0, 0, 0, "", 0, false⟩

/-- Go zero value of `model.Option`. -/
def model.Option.zero : model.Option := ⟨0, 0, ""⟩

/-- `getOptionCount` of `user.go`. -/
structure getOptionCount where
  SerialNum : Int
  Content : String
  Count : Int
  Rank : Int
deriving DecidableEq, Repr

/-- Go zero value of `getOptionCount`. -/
def getOptionCount.zero : getOptionCount := ⟨0, "", 0, 0⟩

/-- `getSurveyStatisticsResponse` of `user.go`. -/
structure getSurveyStatisticsResponse where
  SerialNum : Int
  Question : String
  QuestionType : Int
  Options : List getOptionCount
deriving DecidableEq, Repr

/-! ## Go maps -/

namespace GoMap

/-- The two-valued map read `v, ok := m[k]`. -/
def lookup {K V : Type} [DecidableEq K] : List (K × V) → K → Option V
  | [], _ => none
  | (k1, v) :: rest, k => if k1 = k then some v else lookup rest k

/-- The map read `m[k]`, with the zero value `d` for a missing key. -/
def getD {K V : Type} [DecidableEq K] (m : List (K × V)) (k : K) (d : V) : V :=
  (lookup m k).getD d

/-- The map write `m[k] = v`. -/
def set {K V : Type} [DecidableEq K] : List (K × V) → K → V → List (K × V)
  | [], k, v => [(k, v)]
  | (k1, v1) :: rest, k, v => if k1 = k then (k1, v) :: rest else (k1, v1) :: set rest k v

/-- The keys a `range` loop visits. -/
def keys {K V : Type} (m : List (K × V)) : List K := m.map Prod.fst

end GoMap

/-- `strings.Split(s, "┋")`. -/
def stringsSplit (s : String) : List String :=
  (s.toList.splitOn '┋').map String.mk

/-! ## Rank step of `GetSurveyStatistics` (user.go 558-585) -/

/-- The `less` function given to `sort.Slice`: count descending, then serial number ascending. -/
def optionLess (a b : getOptionCount) : Bool :=
  if a.Count = b.Count then decide (a.SerialNum < b.SerialNum) else decide (a.Count > b.Count)

/-- The order `sort.Slice` establishes: `a` may stand before `b` when `b` is not less than `a`. -/
def optionBefore (a b : getOptionCount) : Prop := optionLess b a = false

instance optionBeforeDecidable : DecidableRel optionBefore :=
  fun a b => inferInstanceAs (Decidable (optionLess b a = false))

/-- The sorted copy `sortedQOptions` after `sort.Slice`. Two options the comparator leaves
unordered agree on count and serial number, the only fields the rank loop reads, so the ranks
do not depend on the sorting algorithm; insertion sort is used here. -/
def sortedQOptions (qOptions : List getOptionCount) : List getOptionCount :=
  qOptions.insertionSort optionBefore

/-- One iteration `i` of the rank loop; the state is `(currentRank, rankMap)`. -/
def rankStep (sorted : List getOptionCount) (st : Int × (Int → Int)) (i : Nat) :
    Int × (Int → Int) :=
  let cur := sorted.getD i getOptionCount.zero
  let prev := sorted.getD (i - 1) getOptionCount.zero
  let currentRank := if 0 < i ∧ cur.Count < prev.Count then (i : Int) + 1 else st.1
  (currentRank, Function.update st.2 cur.SerialNum currentRank)

/-- The rank loop `for i := 0; i < len(sortedQOptions); i++`, from `currentRank := 1` and an
empty `rankMap` (every key reads 0). -/
def rankLoop (sorted : List getOptionCount) : Int × (Int → Int) :=
  (List.range sorted.length).foldl (rankStep sorted) (1, fun _ => 0)

/-- The whole rank step: sort a copy, walk it, write the ranks back by serial number. -/
def assignRanks (qOptions : List getOptionCount) : List getOptionCount :=
  let rankMap := (rankLoop (sortedQOptions qOptions)).2
  qOptions.map (fun o => { o with Rank := rankMap o.SerialNum })

/-- The number of options of `l` whose count is strictly greater than `c`. -/
def greaterCount (l : List getOptionCount) (c : Int) : Nat :=
  l.countP (fun p => decide (c < p.Count))

/-! ## `SaveAnswerSheet` (answer.go 38-117) -/

namespace dao

/-- `contains` of answer.go: linear search of `item` in `arr`. -/
def contains : List Int → Int → Bool
  | [], _ => false
  | a :: arr, item => if a = item then true else contains arr item

/-- One entry of `matchConditions`: the document asking for an element of `answers` whose
`questionid` and `content` both equal the given values (`$elemMatch`). -/
structure MatchCondition where
  questionid : Int
  content : String
deriving DecidableEq, Repr

/-- The filter document of `SaveAnswerSheet`: field `unique` equal to the given value and at
least one of the `$or` conditions satisfied. -/
structure Filter where
  unique : Bool
  or : List MatchCondition
deriving DecidableEq, Repr

/-- Outcome of `FindOne(...).Decode(&result)`: a decoded document, the distinguished error
`mongo.ErrNoDocuments`, or any other error. -/
inductive FindResult (E : Type) where
  | found (doc : AnswerSheet)
  | errNoDocuments
  | failed (err : E)
deriving DecidableEq, Repr

/-- The collection handle `d.mongo` as `SaveAnswerSheet` uses it, over an arbitrary store state
`σ` and error type `E`. Every operation returns the store state it leaves behind; an error
result is `some err` (`nil` is `none`). `UpdateOne st filter b` stands for the update document
that sets `unique` to `b`. -/
structure Collection (σ E : Type) where
  InsertOne : σ → AnswerSheet → σ × Option E
  FindOne : σ → Filter → σ × FindResult E
  UpdateOne : σ → Filter → Bool → σ × Option E

/-- The loop building `matchConditions`: one condition per answer whose question is tracked. -/
def matchConditions (answerSheet : AnswerSheet) (qids : List Int) : List MatchCondition :=
  answerSheet.Answers.foldl
    (fun mc answer =>
      if contains qids answer.QuestionID then mc ++ [⟨answer.QuestionID, answer.Content⟩]
      else mc)
    []

/-- `SaveAnswerSheet`: the store state left behind and the returned error (`none` is `nil`). -/
def SaveAnswerSheet {σ E : Type} (mongo : Collection σ E) (st : σ) (answerSheet : AnswerSheet)
    (qids : List Int) : σ × Option E :=
  let mc := matchConditions answerSheet qids
  if mc.length = 0 then
    mongo.InsertOne st answerSheet
  else
    let filter : Filter := ⟨true, mc⟩
    match mongo.FindOne st filter with
    | (st1, FindResult.failed err) => (st1, some err)
    | (st1, FindResult.errNoDocuments) => mongo.InsertOne st1 answerSheet
    | (st1, FindResult.found _) =>
      match mongo.UpdateOne st1 filter false with
      | (st2, some err) => (st2, some err)
      | (st2, none) =>
        mongo.InsertOne st2
          ⟨answerSheet.SurveyID, answerSheet.Time, true, answerSheet.Answers⟩

/-! ### The store: call log and in-memory collection -/

/-- One store operation invoked on a collection, with its arguments and its result. -/
inductive StoreCall (E : Type) where
  | insertOne (doc : AnswerSheet) (err : Option E)
  | findOne (filter : Filter) (res : FindResult E)
  | updateOne (filter : Filter) (unique : Bool) (err : Option E)
deriving DecidableEq, Repr

/-- The error a store operation failed with, if it failed; `mongo.ErrNoDocuments` is the
not-found outcome of `FindOne`, not a failure. -/
def StoreCall.error {E : Type} : StoreCall E → Option E
  | StoreCall.insertOne _ err => err
  | StoreCall.findOne _ (FindResult.failed err) => some err
  | StoreCall.findOne _ _ => none
  | StoreCall.updateOne _ _ err => err

/-- A collection that additionally records every operation invoked on it, in order. -/
def logged {σ E : Type} (mongo : Collection σ E) : Collection (σ × List (StoreCall E)) E where
  InsertOne st doc :=
    let r := mongo.InsertOne st.1 doc
    ((r.1, st.2 ++ [StoreCall.insertOne doc r.2]), r.2)
  FindOne st filter :=
    let r := mongo.FindOne st.1 filter
    ((r.1, st.2 ++ [StoreCall.findOne filter r.2]), r.2)
  UpdateOne st filter b :=
    let r := mongo.UpdateOne st.1 filter b
    ((r.1, st.2 ++ [StoreCall.updateOne filter b r.2]), r.2)

/-- A stored sheet satisfies a match condition: one of its answers has that question ID and
exactly that content. -/
def MatchCondition.holds (c : MatchCondition) (doc : AnswerSheet) : Bool :=
  doc.Answers.any (fun a => decide (a.QuestionID = c.questionid) && decide (a.Content = c.content))

/-- A stored sheet is selected by a filter. -/
def Filter.selects (f : Filter) (doc : AnswerSheet) : Bool :=
  decide (doc.Unique = f.unique) && f.or.any (fun c => c.holds doc)

/-- The single-document update: the first selected sheet gets `unique` set to `b`. -/
def setUniqueFirst (f : Filter) (b : Bool) : List AnswerSheet → List AnswerSheet
  | [] => []
  | d :: rest =>
    if f.selects d then ⟨d.SurveyID, d.Time, b, d.Answers⟩ :: rest
    else d :: setUniqueFirst f b rest

/-- Modelled from the spec: the document store behind the adapter, which is not part of the
sources. The sheets are kept in insertion order; no operation fails; `insertOne` appends,
`findOne` returns the first sheet the filter selects or not-found, `updateOne` patches the
first sheet the filter selects. -/
def memCollection : Collection (List AnswerSheet) Unit where
  InsertOne st doc := (st ++ [doc], none)
  FindOne st filter :=
    match st.find? filter.selects with
    | some doc => (st, FindResult.found doc)
    | none => (st, FindResult.errNoDocuments)
  UpdateOne st filter b := (setUniqueFirst filter b st, none)

/-- Submitting the sheets one after another, without interleaving, to the store `st`. -/
def submitAll (qids : List Int) (sheets : List AnswerSheet) (st : List AnswerSheet) :
    List AnswerSheet :=
  sheets.foldl (fun st sheet => (SaveAnswerSheet memCollection st sheet qids).1) st

/-- The combination of tracked-question answers of a sheet: question ID and content of each
answer to a tracked question, in the sheet's order. -/
def trackedAnswers (qids : List Int) (sheet : AnswerSheet) : List (Int × String) :=
  (sheet.Answers.filter (fun a => contains qids a.QuestionID)).map
    (fun a => (a.QuestionID, a.Content))

/-- The dedup invariant as the specification words it: of two stored sheets with the same
combination of tracked-question answers, the older one has `unique = false` (so at most one,
the newest, can have `unique = true`). -/
def dedupInvariant (qids : List Int) (st : List AnswerSheet) : Prop :=
  st.Pairwise (fun older newer =>
    trackedAnswers qids older = trackedAnswers qids newer → older.Unique = false)

/-- The dedup invariant restricted to sheets that answer a tracked question. -/
def dedupInvariantTracked (qids : List Int) (st : List AnswerSheet) : Prop :=
  st.Pairwise (fun older newer =>
    trackedAnswers qids older ≠ [] →
      trackedAnswers qids older = trackedAnswers qids newer → older.Unique = false)

instance dedupInvariantDecidable (qids : List Int) (st : List AnswerSheet) :
    Decidable (dedupInvariant qids st) := by
  unfold dedupInvariant
  infer_instance

end dao

/-! ## `GetSurveyStatistics` (user.go 429-595) and `ensureMap` (user.go 597-602) -/

/-- The branch for an empty `answerSheets` (user.go 430-468): one entry per question in the
given order, every option and, when the question allows it, a final entry "其他" (other) with
serial number 0, all with count 0 and rank 1. `getOptions` is `service.GetOptionsByQuestionID`. -/
def emptyStatistics (questions : List model.Question) (getOptions : Int → List model.Option) :
    List getSurveyStatisticsResponse :=
  questions.foldl
    (fun response q =>
      let options := getOptions q.ID
      let qOptions : List getOptionCount :=
        options.foldl (fun acc option => acc ++ [⟨option.SerialNum, option.Content, 0, 1⟩]) []
      let qOptions := if q.OtherOption then qOptions ++ [⟨0, "其他", 0, 1⟩] else qOptions
      response ++ [⟨q.SerialNum, q.Subject, q.QuestionType, qOptions⟩])
    []

/-- The four lookup maps built from the questions (user.go 470-477). -/
structure StatMaps where
  questionMap : List (Int × model.Question)
  optionsMap : List (Int × List model.Option)
  optionAnswerMap : List (Int × List (String × model.Option))
  optionSerialNumMap : List (Int × List (Int × model.Option))
deriving DecidableEq, Repr

/-- The inner loop over the options of one question (user.go 488-491). -/
def addOption (qid : Int) (m : StatMaps) (option : model.Option) : StatMaps :=
  { m with
    optionAnswerMap :=
      GoMap.set m.optionAnswerMap qid
        (GoMap.set (GoMap.getD m.optionAnswerMap qid []) option.Content option)
    optionSerialNumMap :=
      GoMap.set m.optionSerialNumMap qid
        (GoMap.set (GoMap.getD m.optionSerialNumMap qid []) option.SerialNum option) }

/-- One iteration of the loop over the questions (user.go 478-492). -/
def addQuestion (getOptions : Int → List model.Option) (m : StatMaps)
    (question : model.Question) : StatMaps :=
  let options := getOptions question.ID
  let m1 : StatMaps :=
    { questionMap := GoMap.set m.questionMap question.ID question
      optionAnswerMap := GoMap.set m.optionAnswerMap question.ID []
      optionSerialNumMap := GoMap.set m.optionSerialNumMap question.ID []
      optionsMap := GoMap.set m.optionsMap question.ID options }
  options.foldl (addOption question.ID) m1

/-- The loop over the questions (user.go 478-492). -/
def buildMaps (questions : List model.Question) (getOptions : Int → List model.Option) :
    StatMaps :=
  questions.foldl (addQuestion getOptions) ⟨[], [], [], []⟩

/-- `ensureMap`: the outer map after making sure `key` is bound to an inner map. The inner map
returned by the Go function is `GoMap.getD (ensureMap m key) key []`. -/
def ensureMap (m : List (Int × List (Int × Int))) (key : Int) : List (Int × List (Int × Int)) :=
  match GoMap.lookup m key with
  | none => GoMap.set m key []
  | some _ => m

/-- The write `ensureMap(m, key)[k] = v` through the returned inner map. -/
def setCount (m : List (Int × List (Int × Int))) (key k v : Int) : List (Int × List (Int × Int)) :=
  let m1 := ensureMap m key
  GoMap.set m1 key (GoMap.set (GoMap.getD m1 key []) k v)

/-- The increment `ensureMap(m, key)[k]++`. -/
def incrCount (m : List (Int × List (Int × Int))) (key k : Int) : List (Int × List (Int × Int)) :=
  let m1 := ensureMap m key
  let counts := GoMap.getD m1 key []
  GoMap.set m1 key (GoMap.set counts k (GoMap.getD counts k 0 + 1))

/-- The initialisation of the counts of a question not seen before (user.go 500-506). -/
def initCounts (optionCounts : List (Int × List (Int × Int))) (question : model.Question)
    (options : List model.Option) : List (Int × List (Int × Int)) :=
  match GoMap.lookup optionCounts question.ID with
  | some _ => optionCounts
  | none =>
    options.foldl (fun oc option => setCount oc question.ID option.SerialNum 0)
      (ensureMap optionCounts question.ID)

/-- The vote for one selected value `answerOption` (user.go 511-521): the serial number of the
option registered under that content, or 0, the "other" bucket. -/
def countValue (maps : StatMaps) (qid : Int) (optionCounts : List (Int × List (Int × Int)))
    (answerOption : String) : List (Int × List (Int × Int)) :=
  match GoMap.lookup maps.optionAnswerMap qid with
  | some questionOptions =>
    match GoMap.lookup questionOptions answerOption with
    | some option => incrCount optionCounts qid option.SerialNum
    | none => incrCount optionCounts qid 0
  | none => incrCount optionCounts qid 0

/-- The body of the loop over the answers of a sheet (user.go 497-524). -/
def countAnswer (maps : StatMaps) (optionCounts : List (Int × List (Int × Int)))
    (answer : dao.Answer) : List (Int × List (Int × Int)) :=
  let options := GoMap.getD maps.optionsMap answer.QuestionID []
  let question := GoMap.getD maps.questionMap answer.QuestionID model.Question.zero
  let oc := initCounts optionCounts question options
  if question.QuestionType = 1 then
    (stringsSplit answer.Content).foldl (countValue maps answer.QuestionID) oc
  else oc

/-- The accumulator `optionCounts` after the loop over all sheets (user.go 495-525). -/
def countSheets (maps : StatMaps) (answerSheets : List dao.AnswerSheet) :
    List (Int × List (Int × Int)) :=
  answerSheets.foldl (fun oc sheet => sheet.Answers.foldl (countAnswer maps) oc) []

/-- `sort.Ints`. -/
def sortInts (l : List Int) : List Int := l.insertionSort (fun a b => a ≤ b)

/-- The option list of one question before ranking (user.go 529-556). -/
def assembleOptions (maps : StatMaps) (qid : Int) (options : List (Int × Int)) :
    List getOptionCount :=
  let q := GoMap.getD maps.questionMap qid model.Question.zero
  let qOptions : List getOptionCount :=
    if q.OtherOption then [⟨0, "其他", GoMap.getD options 0 0, 0⟩] else []
  let sortedSerialNums := sortInts (GoMap.keys options)
  sortedSerialNums.foldl
    (fun acc oSerialNum =>
      let count := GoMap.getD options oSerialNum 0
      let op := GoMap.getD (GoMap.getD maps.optionSerialNumMap qid []) oSerialNum
        model.Option.zero
      acc ++ [⟨op.SerialNum, op.Content, count, 0⟩])
    qOptions

/-- The response entry of one question (user.go 528-592). -/
def questionStatistics (maps : StatMaps) (qid : Int) (options : List (Int × Int)) :
    getSurveyStatisticsResponse :=
  let q := GoMap.getD maps.questionMap qid model.Question.zero
  ⟨q.SerialNum, q.Subject, q.QuestionType, assignRanks (assembleOptions maps qid options)⟩

/-- The branch for a non-empty `answerSheets` (user.go 470-594). The Go loop ranges over the
map `optionCounts` in an unspecified order; the entries are listed here in the order in which
the questions were first counted. -/
def countedStatistics (questions : List model.Question) (getOptions : Int → List model.Option)
    (answerSheets : List dao.AnswerSheet) : List getSurveyStatisticsResponse :=
  let maps := buildMaps questions getOptions
  (countSheets maps answerSheets).foldl
    (fun response p => response ++ [questionStatistics maps p.1 p.2])
    []

/-- The statistics part of `GetSurveyStatistics` (user.go 429-594), given the questions of the
survey, the options of each question and the answer sheets. -/
def GetSurveyStatistics (questions : List model.Question) (getOptions : Int → List model.Option)
    (answerSheets : List dao.AnswerSheet) : List getSurveyStatisticsResponse :=
  if answerSheets.length = 0 then emptyStatistics questions getOptions
  else countedStatistics questions getOptions answerSheets

/-- The accumulated count `optionCounts[qid][serialNum]`. -/
def accumulatedCount (optionCounts : List (Int × List (Int × Int))) (qid serialNum : Int) : Int :=
  GoMap.getD (GoMap.getD optionCounts qid []) serialNum 0

/-- All selected values of the answers to question `qid` over all sheets: the content of each
such answer split on the separator. -/
def selectedValues (qid : Int) (answerSheets : List dao.AnswerSheet) : List String :=
  answerSheets.flatMap (fun sheet =>
    (sheet.Answers.filter (fun a => decide (a.QuestionID = qid))).flatMap
      (fun a => stringsSplit a.Content))

/-- The serial number under which a selected value is counted: that of the option registered
under this content for the question, or 0 (the "other" bucket) when there is none. -/
def voteTarget (maps : StatMaps) (qid : Int) (answerOption : String) : Int :=
  match GoMap.lookup maps.optionAnswerMap qid with
  | some questionOptions =>
    match GoMap.lookup questionOptions answerOption with
    | some option => option.SerialNum
    | none => 0
  | none => 0

/-- The counts written by the zero-initialising loop into an empty inner map. -/
def zeroCounts (options : List model.Option) : List (Int × Int) :=
  options.foldl (fun inner option => GoMap.set inner option.SerialNum 0) []

/-- The inner map `optionAnswerMap[qid]` the option loop builds: content to option. -/
def contentIndex (options : List model.Option) : List (String × model.Option) :=
  options.foldl (fun inner option => GoMap.set inner option.Content option) []

/-- The inner map `optionSerialNumMap[qid]` the option loop builds: serial number to option. -/
def serialIndex (options : List model.Option) : List (Int × model.Option) :=
  options.foldl (fun inner option => GoMap.set inner option.SerialNum option) []

/-- The sum of the counts held by an inner map `optionCounts[qid]`. -/
def countsSum (counts : List (Int × Int)) : Int := (counts.map Prod.snd).sum

/-- The sum of all accumulated counts of question `qid`: the accumulated count of every serial
number bound in `optionCounts[qid]`, added up. -/
def accumulatedTotal (optionCounts : List (Int × List (Int × Int))) (qid : Int) : Int :=
  ((GoMap.keys (GoMap.getD optionCounts qid [])).map
    (fun serialNum => accumulatedCount optionCounts qid serialNum)).sum

/-- Every inner map of the accumulator binds each serial number once (what a Go map is). -/
def countsWellFormed (optionCounts : List (Int × List (Int × Int))) : Prop :=
  ∀ k inner, GoMap.lookup optionCounts k = some inner → (GoMap.keys inner).Nodup

/-! ## Time and status checks of `SubmitSurvey` (user.go 64-77) and `GetSurvey` (user.go 184-197) -/

/-- Go `time.Time` as far as `IsZero`, `Before` and `After` read it: the instant, in
nanoseconds since the zero instant (January 1 of year 1, 00:00:00 UTC). -/
structure time.Time where
  sinceZero : Int
deriving DecidableEq, Repr

/-- `Time.IsZero`: the instant is the zero instant. -/
def time.Time.IsZero (t : time.Time) : Bool := decide (t.sinceZero = 0)

/-- `Time.Before`: the instant `t` is before `u`. -/
def time.Time.Before (t u : time.Time) : Bool := decide (t.sinceZero < u.sinceZero)

/-- `Time.After`: the instant `t` is after `u`. -/
def time.Time.After (t u : time.Time) : Bool := decide (u.sinceZero < t.sinceZero)

/-- Modelled from the spec: `model.Survey` is declared outside the given sources; the fields
kept are the ones the time and status checks of the two handlers read. -/
structure model.Survey where
  Status : Int
  Deadline : time.Time
  StartTime : time.Time
deriving DecidableEq, Repr

/-- Modelled from the spec: package `code` is outside the given sources; these are the two
error codes the time and status checks abort with. -/
inductive code.Error where
  | TimeBeyondError
  | SurveyNotOpen
deriving DecidableEq, Repr

/-- An abort `code.AbortWithException(c, code, errors.New(message))`. -/
structure Abort where
  code : code.Error
  message : String
deriving DecidableEq, Repr

/-- The checks of `SubmitSurvey` at user.go 64-77, in source order: deadline, start time,
status. `now1` and `now2` are the two readings of `time.Now()`. The result is the abort, or
`none` when the handler goes on. -/
def submitSurveyChecks (survey : model.Survey) (now1 now2 : time.Time) : Option Abort :=
  if (!survey.Deadline.IsZero && survey.Deadline.Before now1) = true then
    some ⟨code.Error.TimeBeyondError, "填写时间已过"⟩
  else if (!survey.StartTime.IsZero && survey.StartTime.After now2) = true then
    some ⟨code.Error.TimeBeyondError, "填写时间未到"⟩
  else if survey.Status ≠ 2 then
    some ⟨code.Error.SurveyNotOpen, "问卷未开放"⟩
  else none

/-- The checks of `GetSurvey` at user.go 184-197, in source order: deadline, status, start
time. `now1` and `now2` are the two readings of `time.Now()`. The result is the abort, or
`none` when the handler goes on to build the response. -/
def getSurveyChecks (survey : model.Survey) (now1 now2 : time.Time) : Option Abort :=
  if (!survey.Deadline.IsZero && survey.Deadline.Before now1) = true then
    some ⟨code.Error.TimeBeyondError, "问卷填写时间已截至"⟩
  else if survey.Status ≠ 2 then
    some ⟨code.Error.SurveyNotOpen, "问卷未开放"⟩
  else if (survey.StartTime.IsZero && survey.StartTime.After now2) = true then
    some ⟨code.Error.SurveyNotOpen, "问卷未开放"⟩
  else none

/-! ## Theorems -/
/-! ### Rank step -/

theorem optionBefore_count {a b : getOptionCount} (h : optionBefore a b) : b.Count ≤ a.Count := by
  unfold optionBefore optionLess at h
  split at h
  · omega
  · simp at h
    exact h

instance optionBefore_isTotal : IsTotal getOptionCount optionBefore where
  total a b := by
    unfold optionBefore optionLess
    by_cases hc : a.Count = b.Count
    · have hc2 : b.Count = a.Count := hc.symm
      simp only [hc, if_true, decide_eq_false_iff_not]
      omega
    · have hc2 : ¬ b.Count = a.Count := fun h => hc h.symm
      simp only [hc, hc2, if_false, decide_eq_false_iff_not]
      omega

instance optionBefore_isTrans : IsTrans getOptionCount optionBefore where
  trans a b c := by
    unfold optionBefore optionLess
    intro h1 h2
    split_ifs at h1 h2 ⊢ <;> simp only [decide_eq_false_iff_not] at h1 h2 ⊢ <;> omega

/-- The sorted copy is a permutation of the options. -/
theorem sortedQOptions_perm (l : List getOptionCount) : (sortedQOptions l).Perm l :=
  List.perm_insertionSort optionBefore l

/-- The sorted copy is descending in count. -/
theorem sortedQOptions_desc (l : List getOptionCount) :
    (sortedQOptions l).Pairwise (fun a b => b.Count ≤ a.Count) :=
  (List.sorted_insertionSort optionBefore l).imp (fun h => optionBefore_count h)

theorem desc_getD_le {L : List getOptionCount}
    (hdesc : L.Pairwise (fun a b => b.Count ≤ a.Count)) {i j : Nat} (hij : i ≤ j)
    (hj : j < L.length) :
    (L.getD j getOptionCount.zero).Count ≤ (L.getD i getOptionCount.zero).Count := by
  have hi : i < L.length := by omega
  rw [List.getD_eq_getElem _ _ hj, List.getD_eq_getElem _ _ hi]
  rcases Nat.eq_or_lt_of_le hij with h | h
  · subst h
    exact le_refl _
  · exact (List.pairwise_iff_getElem.1 hdesc) i j hi hj h

/-- In a count-descending list, an element whose count drops below its predecessor's has
exactly its own index many strictly greater elements. -/
theorem greaterCount_drop {L : List getOptionCount}
    (hdesc : L.Pairwise (fun a b => b.Count ≤ a.Count)) {k : Nat} (hk : k < L.length)
    (hlt : (L.getD k getOptionCount.zero).Count < (L.getD (k - 1) getOptionCount.zero).Count) :
    greaterCount L (L.getD k getOptionCount.zero).Count = k := by
  unfold greaterCount
  have hsplit : ∀ c : Int, L.countP (fun p => decide (c < p.Count)) =
      (L.take k).countP (fun p => decide (c < p.Count)) +
        (L.drop k).countP (fun p => decide (c < p.Count)) := by
    intro c
    rw [← List.countP_append, List.take_append_drop]
  rw [hsplit]
  have h1 : (L.take k).countP
      (fun p => decide ((L.getD k getOptionCount.zero).Count < p.Count)) = (L.take k).length := by
    rw [List.countP_eq_length]
    intro a ha
    obtain ⟨i, hi, rfl⟩ := List.mem_take_iff_getElem.1 ha
    have hik : i ≤ k - 1 := by
      have := lt_min_iff.1 hi
      omega
    have hle := desc_getD_le hdesc hik (by omega : k - 1 < L.length)
    rw [List.getD_eq_getElem _ _ (by omega : i < L.length)] at hle
    simp only [decide_eq_true_eq]
    omega
  have h2 : (L.drop k).countP
      (fun p => decide ((L.getD k getOptionCount.zero).Count < p.Count)) = 0 := by
    rw [List.countP_eq_zero]
    intro a ha
    obtain ⟨i, hi, rfl⟩ := List.mem_drop_iff_getElem.1 ha
    have hle := desc_getD_le hdesc (Nat.le_add_right k i) (by omega : k + i < L.length)
    rw [List.getD_eq_getElem _ _ (by omega : k + i < L.length)] at hle
    simp only [decide_eq_true_eq]
    omega
  rw [h1, h2, List.length_take]
  omega

theorem greaterCount_first {L : List getOptionCount}
    (hdesc : L.Pairwise (fun a b => b.Count ≤ a.Count)) :
    greaterCount L (L.getD 0 getOptionCount.zero).Count = 0 := by
  unfold greaterCount
  rw [List.countP_eq_zero]
  intro a ha
  obtain ⟨i, hi, rfl⟩ := List.getElem_of_mem ha
  have hle := desc_getD_le hdesc (Nat.zero_le i) hi
  rw [List.getD_eq_getElem _ _ hi] at hle
  simp only [decide_eq_true_eq]
  omega

/-- Invariant of the rank loop on a count-descending list after `k` iterations:
`currentRank` is the competition rank of the last visited element, and every visited serial
number is mapped to the competition rank of a visited element carrying that serial number. -/
theorem rankLoop_invariant {L : List getOptionCount}
    (hdesc : L.Pairwise (fun a b => b.Count ≤ a.Count)) (k : Nat) (hk : k ≤ L.length) :
    (((List.range k).foldl (rankStep L) (1, fun _ => 0)).1 =
        if k = 0 then 1
        else 1 + (greaterCount L (L.getD (k - 1) getOptionCount.zero).Count : Int)) ∧
    ∀ j, j < k → ∃ j2, j2 < k ∧
      (L.getD j2 getOptionCount.zero).SerialNum = (L.getD j getOptionCount.zero).SerialNum ∧
      ((List.range k).foldl (rankStep L) (1, fun _ => 0)).2
          (L.getD j getOptionCount.zero).SerialNum =
        1 + (greaterCount L (L.getD j2 getOptionCount.zero).Count : Int) := by
  induction k with
  | zero => simp
  | succ k ih =>
    obtain ⟨ih1, ih2⟩ := ih (by omega)
    rw [List.range_succ, List.foldl_append]
    simp only [List.foldl_cons, List.foldl_nil]
    generalize (List.range k).foldl (rankStep L) (1, fun _ => 0) = st at ih1 ih2
    have hcur : (rankStep L st k).1 =
        1 + (greaterCount L (L.getD k getOptionCount.zero).Count : Int) := by
      unfold rankStep
      simp only
      by_cases hc : 0 < k ∧
          (L.getD k getOptionCount.zero).Count < (L.getD (k - 1) getOptionCount.zero).Count
      · rw [if_pos hc, greaterCount_drop hdesc (by omega) hc.2]
        omega
      · rw [if_neg hc, ih1]
        by_cases hk0 : k = 0
        · subst hk0
          rw [if_pos rfl, greaterCount_first hdesc]
          simp
        · rw [if_neg hk0]
          have hle := desc_getD_le hdesc (Nat.sub_le k 1) (by omega : k < L.length)
          have heq : (L.getD k getOptionCount.zero).Count =
              (L.getD (k - 1) getOptionCount.zero).Count := by
            have : ¬ (L.getD k getOptionCount.zero).Count <
                (L.getD (k - 1) getOptionCount.zero).Count := fun h => hc ⟨by omega, h⟩
            omega
          rw [heq]
    refine ⟨?_, ?_⟩
    · rw [hcur]
      simp
    · intro j hj
      have hupd : (rankStep L st k).2 =
          Function.update st.2 (L.getD k getOptionCount.zero).SerialNum (rankStep L st k).1 := by
        unfold rankStep
        simp only
      by_cases hs : (L.getD j getOptionCount.zero).SerialNum =
          (L.getD k getOptionCount.zero).SerialNum
      · refine ⟨k, by omega, hs.symm, ?_⟩
        rw [hupd, hs, Function.update_same, hcur]
      · have hjk : j < k := by
          rcases Nat.lt_or_ge j k with h | h
          · exact h
          · have : j = k := by omega
            subst this
            exact absurd rfl hs
        obtain ⟨j2, hj2, hsn, hval⟩ := ih2 j hjk
        refine ⟨j2, by omega, hsn, ?_⟩
        rw [hupd, Function.update_noteq hs, hval]

/-- What the rank step writes on an option: the competition rank (one plus the number of
options with a strictly greater count) of some option carrying the same serial number. -/
theorem assignRanks_rankMap (l : List getOptionCount) (o : getOptionCount) (ho : o ∈ l) :
    ∃ p ∈ l, p.SerialNum = o.SerialNum ∧
      (rankLoop (sortedQOptions l)).2 o.SerialNum = 1 + (greaterCount l p.Count : Int) := by
  have hperm := sortedQOptions_perm l
  have hdesc := sortedQOptions_desc l
  obtain ⟨j, hj, hjo⟩ := List.getElem_of_mem (hperm.mem_iff.2 ho)
  obtain ⟨_, h2⟩ := rankLoop_invariant hdesc (sortedQOptions l).length (le_refl _)
  obtain ⟨j2, hj2, hsn, hval⟩ := h2 j hj
  rw [List.getD_eq_getElem _ _ hj, hjo] at hsn hval
  rw [List.getD_eq_getElem _ _ hj2] at hsn hval
  refine ⟨(sortedQOptions l)[j2], hperm.mem_iff.1 (List.getElem_mem _), hsn, ?_⟩
  unfold rankLoop
  rw [hval]
  unfold greaterCount
  rw [hperm.countP_eq]

/-- C1: the rank step is competition ranking. For every option list with pairwise distinct
serial numbers, the rank written onto each option is one plus the number of options of the
list whose count is strictly greater. -/
theorem assignRanks_competition (qOptions : List getOptionCount)
    (hnodup : (qOptions.map (fun o => o.SerialNum)).Nodup) :
    assignRanks qOptions =
      qOptions.map (fun o => { o with Rank := 1 + (greaterCount qOptions o.Count : Int) }) := by
  unfold assignRanks
  apply List.map_congr_left
  intro o ho
  obtain ⟨p, hp, hsn, hval⟩ := assignRanks_rankMap qOptions o ho
  have hpo : p = o := List.inj_on_of_nodup_map hnodup hp ho hsn
  subst hpo
  simp only [hval]

/-- C1 at the examples of the specification: counts 5,5,3,3,1 are ranked 1,1,3,3,5 and counts
5,5,3 are ranked 1,1,3. -/
theorem assignRanks_competition_witness :
    (([⟨1, "a", 5, 0⟩, ⟨2, "b", 5, 0⟩, ⟨3, "c", 3, 0⟩, ⟨4, "d", 3, 0⟩, ⟨5, "e", 1, 0⟩] :
        List getOptionCount).map (fun o => o.SerialNum)).Nodup ∧
    (assignRanks [⟨1, "a", 5, 0⟩, ⟨2, "b", 5, 0⟩, ⟨3, "c", 3, 0⟩, ⟨4, "d", 3, 0⟩,
        ⟨5, "e", 1, 0⟩]).map (fun o => o.Rank) = [1, 1, 3, 3, 5] ∧
    (assignRanks [⟨1, "a", 5, 0⟩, ⟨2, "b", 5, 0⟩, ⟨3, "c", 3, 0⟩]).map (fun o => o.Rank)
      = [1, 1, 3] := by
  refine ⟨by decide, ?_, ?_⟩
  · rw [assignRanks_competition _ (by decide)]
    decide
  · rw [assignRanks_competition _ (by decide)]
    decide

/-! ### `SaveAnswerSheet`: basic facts -/

namespace dao

theorem contains_iff (arr : List Int) (item : Int) : contains arr item = true ↔ item ∈ arr := by
  induction arr with
  | nil => simp [contains]
  | cons a arr ih =>
    unfold contains
    by_cases h : a = item
    · simp [h]
    · have h2 : ¬ item = a := fun e => h e.symm
      simp [h, h2, ih]

theorem matchConditions_foldl (qids : List Int) (answers : List Answer)
    (acc : List MatchCondition) :
    answers.foldl
      (fun mc answer =>
        if contains qids answer.QuestionID then mc ++ [⟨answer.QuestionID, answer.Content⟩]
        else mc) acc =
    acc ++ ((answers.filter (fun a => contains qids a.QuestionID)).map
      (fun a => (⟨a.QuestionID, a.Content⟩ : MatchCondition))) := by
  induction answers generalizing acc with
  | nil => simp
  | cons a rest ih =>
    rw [List.foldl_cons, ih]
    by_cases h : contains qids a.QuestionID = true
    · simp [h]
    · simp [h]

/-- The match conditions are the tracked answers of the sheet, in order. -/
theorem matchConditions_eq (sheet : AnswerSheet) (qids : List Int) :
    matchConditions sheet qids =
      (trackedAnswers qids sheet).map (fun p => (⟨p.1, p.2⟩ : MatchCondition)) := by
  unfold matchConditions trackedAnswers
  rw [matchConditions_foldl]
  simp [List.map_map, Function.comp_def]

/-- `SaveAnswerSheet` on the in-memory collection, case by case. -/
theorem SaveAnswerSheet_mem (st : List AnswerSheet) (sheet : AnswerSheet) (qids : List Int) :
    SaveAnswerSheet memCollection st sheet qids =
      if matchConditions sheet qids = [] then (st ++ [sheet], none)
      else
        match st.find? (Filter.selects ⟨true, matchConditions sheet qids⟩) with
        | none => (st ++ [sheet], none)
        | some _ =>
          (setUniqueFirst ⟨true, matchConditions sheet qids⟩ false st ++
            [⟨sheet.SurveyID, sheet.Time, true, sheet.Answers⟩], none) := by
  unfold SaveAnswerSheet
  simp only [List.length_eq_zero]
  by_cases h : matchConditions sheet qids = []
  · simp [h, memCollection]
  · simp only [h, if_false, memCollection]
    cases hf : st.find? (Filter.selects ⟨true, matchConditions sheet qids⟩) <;> simp

end dao

/-! ### Dedup invariant -/

namespace dao

/-- The `$or` filter selects a stored sheet exactly when the sheet is flagged unique and shares
at least one tracked answer (question ID and content) with the submitted sheet. -/
theorem selects_iff (qids : List Int) (sheet d : AnswerSheet) :
    Filter.selects ⟨true, matchConditions sheet qids⟩ d = true ↔
      d.Unique = true ∧ ∃ p ∈ trackedAnswers qids sheet, p ∈ trackedAnswers qids d := by
  unfold Filter.selects
  rw [matchConditions_eq]
  simp only [Bool.and_eq_true, decide_eq_true_eq, List.any_eq_true, List.mem_map,
    MatchCondition.holds]
  constructor
  · rintro ⟨hu, c, ⟨p, hp, rfl⟩, a, ha, hq, hc⟩
    refine ⟨hu, p, hp, ?_⟩
    have hpq : contains qids p.1 = true := by
      unfold trackedAnswers at hp
      simp only [List.mem_map, List.mem_filter] at hp
      obtain ⟨b, ⟨_, hb⟩, rfl⟩ := hp
      exact hb
    unfold trackedAnswers
    simp only [List.mem_map, List.mem_filter]
    refine ⟨a, ⟨ha, ?_⟩, ?_⟩
    · rw [hq]
      exact hpq
    · rw [hq, hc]
  · rintro ⟨hu, p, hp, hpd⟩
    refine ⟨hu, ⟨p.1, p.2⟩, ⟨p, hp, rfl⟩, ?_⟩
    unfold trackedAnswers at hpd
    simp only [List.mem_map, List.mem_filter] at hpd
    obtain ⟨a, ⟨ha, _⟩, rfl⟩ := hpd
    exact ⟨a, ha, rfl, rfl⟩

/-- With at most one tracked answer on either side, sharing a tracked answer is having the
same, non-empty, combination. -/
theorem selects_iff_single (qids : List Int) (sheet d : AnswerSheet)
    (hs : (trackedAnswers qids sheet).length ≤ 1) (hd : (trackedAnswers qids d).length ≤ 1) :
    Filter.selects ⟨true, matchConditions sheet qids⟩ d = true ↔
      d.Unique = true ∧ trackedAnswers qids d ≠ [] ∧
        trackedAnswers qids d = trackedAnswers qids sheet := by
  rw [selects_iff]
  generalize trackedAnswers qids sheet = ts at hs
  generalize trackedAnswers qids d = td at hd
  match ts, td, hs, hd with
  | [], _, _, _ =>
    constructor
    · rintro ⟨_, p, hp, _⟩
      simp at hp
    · rintro ⟨_, h1, h2⟩
      exact absurd h2 h1
  | [_], [], _, _ => simp
  | [x], [y], _, _ =>
    simp only [List.mem_singleton, exists_eq_left, ne_eq, List.cons_ne_nil, not_false_eq_true,
      true_and, List.cons.injEq, and_true]
    constructor
    · rintro ⟨h1, h2⟩
      exact ⟨h1, h2.symm⟩
    · rintro ⟨h1, h2⟩
      exact ⟨h1, h2.symm⟩
  | _ :: _ :: _, _, hs, _ => simp at hs
  | _, _ :: _ :: _, _, hd => simp at hd

/-- Every sheet of the patched store comes from a stored sheet with the same survey, time and
answers; it is either that sheet unchanged, or that sheet was selected and now carries the
new flag. -/
theorem mem_setUniqueFirst (f : Filter) (b : Bool) (st : List AnswerSheet) (x : AnswerSheet)
    (hx : x ∈ setUniqueFirst f b st) :
    ∃ d ∈ st, x.SurveyID = d.SurveyID ∧ x.Time = d.Time ∧ x.Answers = d.Answers ∧
      (x = d ∨ (f.selects d = true ∧ x.Unique = b)) := by
  induction st with
  | nil => simp [setUniqueFirst] at hx
  | cons d rest ih =>
    unfold setUniqueFirst at hx
    by_cases hsel : f.selects d = true
    · rw [if_pos hsel] at hx
      rcases List.mem_cons.1 hx with h | h
      · subst h
        exact ⟨d, List.mem_cons_self _ _, rfl, rfl, rfl, Or.inr ⟨hsel, rfl⟩⟩
      · exact ⟨x, List.mem_cons_of_mem _ h, rfl, rfl, rfl, Or.inl rfl⟩
    · rw [if_neg hsel] at hx
      rcases List.mem_cons.1 hx with h | h
      · subst h
        exact ⟨x, List.mem_cons_self _ _, rfl, rfl, rfl, Or.inl rfl⟩
      · obtain ⟨d0, hd0, h1, h2, h3, h4⟩ := ih h
        exact ⟨d0, List.mem_cons_of_mem _ hd0, h1, h2, h3, h4⟩

theorem trackedAnswers_congr (qids : List Int) {x d : AnswerSheet} (h : x.Answers = d.Answers) :
    trackedAnswers qids x = trackedAnswers qids d := by
  unfold trackedAnswers
  rw [h]

/-- Demoting the first selected sheet keeps the invariant and leaves no unique sheet with the
submitted combination, when every sheet holds at most one tracked answer. -/
theorem setUniqueFirst_invariant (qids : List Int) (sheet : AnswerSheet)
    (hs : (trackedAnswers qids sheet).length ≤ 1) (st : List AnswerSheet)
    (hlen : ∀ d ∈ st, (trackedAnswers qids d).length ≤ 1)
    (hinv : dedupInvariantTracked qids st) :
    dedupInvariantTracked qids (setUniqueFirst ⟨true, matchConditions sheet qids⟩ false st) ∧
    ∀ a ∈ setUniqueFirst ⟨true, matchConditions sheet qids⟩ false st,
      trackedAnswers qids a ≠ [] → trackedAnswers qids a = trackedAnswers qids sheet →
        a.Unique = false := by
  induction st with
  | nil =>
    refine ⟨?_, ?_⟩
    · simp [setUniqueFirst, dedupInvariantTracked]
    · intro a ha
      simp [setUniqueFirst] at ha
  | cons d rest ih =>
    unfold dedupInvariantTracked at hinv
    rw [List.pairwise_cons] at hinv
    obtain ⟨hd, hrest⟩ := hinv
    have hlenr : ∀ x ∈ rest, (trackedAnswers qids x).length ≤ 1 :=
      fun x hx => hlen x (List.mem_cons_of_mem _ hx)
    have hseld := selects_iff_single qids sheet d hs (hlen d (List.mem_cons_self _ _))
    unfold setUniqueFirst
    by_cases hsel : Filter.selects ⟨true, matchConditions sheet qids⟩ d = true
    · rw [if_pos hsel]
      obtain ⟨hu, hne, heq⟩ := hseld.1 hsel
      refine ⟨?_, ?_⟩
      · unfold dedupInvariantTracked
        rw [List.pairwise_cons]
        exact ⟨fun _ _ _ _ => rfl, hrest⟩
      · intro a ha hane haeq
        rcases List.mem_cons.1 ha with h | h
        · subst h
          rfl
        · have := hd a h hne (heq.trans haeq.symm)
          rw [hu] at this
          exact absurd this (by simp)
    · rw [if_neg hsel]
      obtain ⟨ih1, ih2⟩ := ih hlenr hrest
      refine ⟨?_, ?_⟩
      · unfold dedupInvariantTracked
        rw [List.pairwise_cons]
        refine ⟨?_, ih1⟩
        intro b hb hne heq
        obtain ⟨b0, hb0, _, _, hans, _⟩ := mem_setUniqueFirst _ _ _ _ hb
        exact hd b0 hb0 hne (heq.trans (trackedAnswers_congr qids hans))
      · intro a ha hane haeq
        rcases List.mem_cons.1 ha with h | h
        · subst h
          cases hu : a.Unique with
          | false => rfl
          | true => exact absurd (hseld.2 ⟨hu, hane, haeq⟩) hsel
        · exact ih2 a h hane haeq

/-- One submission keeps the invariant, when every sheet holds at most one tracked answer. -/
theorem SaveAnswerSheet_invariant (qids : List Int) (sheet : AnswerSheet)
    (hs : (trackedAnswers qids sheet).length ≤ 1) (st : List AnswerSheet)
    (hlen : ∀ d ∈ st, (trackedAnswers qids d).length ≤ 1)
    (hinv : dedupInvariantTracked qids st) :
    (∀ d ∈ (SaveAnswerSheet memCollection st sheet qids).1,
        (trackedAnswers qids d).length ≤ 1) ∧
    dedupInvariantTracked qids (SaveAnswerSheet memCollection st sheet qids).1 := by
  have happ : ∀ (st2 : List AnswerSheet) (new : AnswerSheet),
      new.Answers = sheet.Answers →
      (∀ d ∈ st2, (trackedAnswers qids d).length ≤ 1) →
      dedupInvariantTracked qids st2 →
      (∀ a ∈ st2, trackedAnswers qids a ≠ [] →
        trackedAnswers qids a = trackedAnswers qids sheet → a.Unique = false) →
      (∀ d ∈ st2 ++ [new], (trackedAnswers qids d).length ≤ 1) ∧
        dedupInvariantTracked qids (st2 ++ [new]) := by
    intro st2 new hnew hl hi hall
    have hc : trackedAnswers qids new = trackedAnswers qids sheet :=
      trackedAnswers_congr qids hnew
    refine ⟨?_, ?_⟩
    · intro d hdm
      rcases List.mem_append.1 hdm with h | h
      · exact hl d h
      · rw [List.mem_singleton] at h
        subst h
        rw [hc]
        exact hs
    · unfold dedupInvariantTracked
      rw [List.pairwise_append]
      refine ⟨hi, List.pairwise_singleton _ _, ?_⟩
      intro a ha b hb hne heq
      rw [List.mem_singleton] at hb
      subst hb
      exact hall a ha hne (heq.trans hc)
  rw [SaveAnswerSheet_mem]
  by_cases hmc : matchConditions sheet qids = []
  · rw [if_pos hmc]
    apply happ st sheet rfl hlen hinv
    intro a _ hne heq
    have hnil : trackedAnswers qids sheet = [] := by
      rw [matchConditions_eq] at hmc
      exact List.map_eq_nil_iff.1 hmc
    rw [hnil] at heq
    exact absurd heq hne
  · rw [if_neg hmc]
    cases hf : st.find? (Filter.selects ⟨true, matchConditions sheet qids⟩) with
    | none =>
      apply happ st sheet rfl hlen hinv
      intro a ha hne heq
      have hns := List.find?_eq_none.1 hf a ha
      cases hu : a.Unique with
      | false => rfl
      | true => exact absurd ((selects_iff_single qids sheet a hs (hlen a ha)).2 ⟨hu, hne, heq⟩) hns
    | some d0 =>
      obtain ⟨h1, h2⟩ := setUniqueFirst_invariant qids sheet hs st hlen hinv
      refine happ _ ⟨sheet.SurveyID, sheet.Time, true, sheet.Answers⟩ rfl ?_ h1 h2
      intro d hdm
      obtain ⟨d1, hd1, _, _, hans, _⟩ := mem_setUniqueFirst _ _ _ _ hdm
      rw [trackedAnswers_congr qids hans]
      exact hlen d1 hd1

theorem submitAll_invariant (qids : List Int) (sheets : List AnswerSheet)
    (hs : ∀ s ∈ sheets, (trackedAnswers qids s).length ≤ 1) (st : List AnswerSheet)
    (hlen : ∀ d ∈ st, (trackedAnswers qids d).length ≤ 1)
    (hinv : dedupInvariantTracked qids st) :
    (∀ d ∈ submitAll qids sheets st, (trackedAnswers qids d).length ≤ 1) ∧
    dedupInvariantTracked qids (submitAll qids sheets st) := by
  induction sheets generalizing st with
  | nil => exact ⟨hlen, hinv⟩
  | cons s rest ih =>
    obtain ⟨h1, h2⟩ := SaveAnswerSheet_invariant qids s (hs s (List.mem_cons_self _ _)) st
      hlen hinv
    exact ih (fun x hx => hs x (List.mem_cons_of_mem _ hx)) _ h1 h2

end dao

/-- C2, as stated, fails. With two tracked questions the `$or` filter selects every unique
sheet sharing one tracked answer and only the first of them is demoted: after four submissions
the last two stored sheets have the same tracked answers and are both unique. With no tracked
question nothing is ever demoted: two unique sheets with the same (empty) combination stay
unique. -/
theorem dedupInvariant_counterexample :
    dao.submitAll [1, 2]
        [⟨1, "t1", true, [⟨1, 1, "q1", "a"⟩, ⟨2, 2, "q2", "z"⟩]⟩,
         ⟨1, "t2", true, [⟨1, 1, "q1", "q"⟩, ⟨2, 2, "q2", "b"⟩]⟩,
         ⟨1, "t3", true, [⟨1, 1, "q1", "a"⟩, ⟨2, 2, "q2", "b"⟩]⟩,
         ⟨1, "t4", true, [⟨1, 1, "q1", "a"⟩, ⟨2, 2, "q2", "b"⟩]⟩] [] =
      [⟨1, "t1", false, [⟨1, 1, "q1", "a"⟩, ⟨2, 2, "q2", "z"⟩]⟩,
       ⟨1, "t2", false, [⟨1, 1, "q1", "q"⟩, ⟨2, 2, "q2", "b"⟩]⟩,
       ⟨1, "t3", true, [⟨1, 1, "q1", "a"⟩, ⟨2, 2, "q2", "b"⟩]⟩,
       ⟨1, "t4", true, [⟨1, 1, "q1", "a"⟩, ⟨2, 2, "q2", "b"⟩]⟩] ∧
    ¬ dao.dedupInvariant [1, 2]
      (dao.submitAll [1, 2]
        [⟨1, "t1", true, [⟨1, 1, "q1", "a"⟩, ⟨2, 2, "q2", "z"⟩]⟩,
         ⟨1, "t2", true, [⟨1, 1, "q1", "q"⟩, ⟨2, 2, "q2", "b"⟩]⟩,
         ⟨1, "t3", true, [⟨1, 1, "q1", "a"⟩, ⟨2, 2, "q2", "b"⟩]⟩,
         ⟨1, "t4", true, [⟨1, 1, "q1", "a"⟩, ⟨2, 2, "q2", "b"⟩]⟩] []) ∧
    ¬ dao.dedupInvariant []
      (dao.submitAll []
        [⟨1, "t1", true, [⟨1, 1, "q1", "a"⟩]⟩, ⟨1, "t2", true, [⟨1, 1, "q1", "a"⟩]⟩] []) := by
  refine ⟨by decide, by decide, by decide⟩

/-- C2, amended: starting from the empty store, after any sequence of submissions each holding
at most one answer to a tracked question, of two stored sheets with the same non-empty
combination of tracked answers the older one has `unique = false`; so at most one stored sheet
per tracked answer is unique, and it is the newest. -/
theorem dedupInvariant_single_tracked (qids : List Int) (sheets : List dao.AnswerSheet)
    (hs : ∀ s ∈ sheets, (dao.trackedAnswers qids s).length ≤ 1) :
    dao.dedupInvariantTracked qids (dao.submitAll qids sheets []) :=
  (dao.submitAll_invariant qids sheets hs [] (fun _ h => absurd h (List.not_mem_nil _))
    List.Pairwise.nil).2

/-- C2, amended, at three submissions answering the tracked question 1 with "a", "b", "a". -/
theorem dedupInvariant_single_tracked_witness :
    (∀ s ∈ ([⟨1, "t1", true, [⟨1, 1, "q1", "a"⟩, ⟨2, 2, "q2", "x"⟩]⟩,
             ⟨1, "t2", true, [⟨1, 1, "q1", "b"⟩, ⟨2, 2, "q2", "x"⟩]⟩,
             ⟨1, "t3", true, [⟨1, 1, "q1", "a"⟩, ⟨2, 2, "q2", "y"⟩]⟩] : List dao.AnswerSheet),
        (dao.trackedAnswers [1] s).length ≤ 1) ∧
    dao.dedupInvariantTracked [1]
      (dao.submitAll [1]
        [⟨1, "t1", true, [⟨1, 1, "q1", "a"⟩, ⟨2, 2, "q2", "x"⟩]⟩,
         ⟨1, "t2", true, [⟨1, 1, "q1", "b"⟩, ⟨2, 2, "q2", "x"⟩]⟩,
         ⟨1, "t3", true, [⟨1, 1, "q1", "a"⟩, ⟨2, 2, "q2", "y"⟩]⟩] []) :=
  ⟨by decide, dedupInvariant_single_tracked _ _ (by decide)⟩

/-! ### Two submissions with one tracked question -/

namespace dao

theorem trackedAnswers_single (Q : Int) (s : AnswerSheet) (a : Answer)
    (h : s.Answers.filter (fun x => decide (x.QuestionID = Q)) = [a]) :
    trackedAnswers [Q] s = [(Q, a.Content)] := by
  have hfun : (fun x : Answer => contains [Q] x.QuestionID) =
      (fun x : Answer => decide (x.QuestionID = Q)) := by
    funext x
    by_cases hx : x.QuestionID = Q
    · simp [contains, hx]
    · have hx2 : ¬ Q = x.QuestionID := fun e => hx e.symm
      simp [contains, hx, hx2]
  have ha : a.QuestionID = Q := by
    have hm : a ∈ s.Answers.filter (fun x => decide (x.QuestionID = Q)) := by
      rw [h]
      exact List.mem_singleton_self a
    simpa using (List.mem_filter.1 hm).2
  unfold trackedAnswers
  rw [hfun, h]
  simp [ha]

end dao

/-- C3: with the single tracked question `Q`, submitting to the empty store two sheets that each
hold exactly one answer to `Q` and are both flagged unique leaves exactly two stored sheets:
the first sheet, demoted to `unique = false` exactly when the two contents are the same string
and otherwise unchanged, followed by the second sheet, unique. -/
theorem two_submissions_single_tracked (Q : Int) (s1 s2 : dao.AnswerSheet) (a1 a2 : dao.Answer)
    (h1 : s1.Answers.filter (fun x => decide (x.QuestionID = Q)) = [a1])
    (h2 : s2.Answers.filter (fun x => decide (x.QuestionID = Q)) = [a2])
    (hu1 : s1.Unique = true) (hu2 : s2.Unique = true) :
    dao.submitAll [Q] [s1, s2] [] =
      [⟨s1.SurveyID, s1.Time, decide (a1.Content ≠ a2.Content), s1.Answers⟩, s2] ∧
    (dao.submitAll [Q] [s1, s2] []).length = 2 ∧
    (∀ d1 d2, dao.submitAll [Q] [s1, s2] [] = [d1, d2] →
      d2.Unique = true ∧ (d1.Unique = false ↔ a1.Content = a2.Content)) := by
  have ht1 := dao.trackedAnswers_single Q s1 a1 h1
  have ht2 := dao.trackedAnswers_single Q s2 a2 h2
  have hm1 : dao.matchConditions s1 [Q] ≠ [] := by
    rw [dao.matchConditions_eq, ht1]
    simp
  have hm2 : dao.matchConditions s2 [Q] ≠ [] := by
    rw [dao.matchConditions_eq, ht2]
    simp
  have hsel : dao.Filter.selects ⟨true, dao.matchConditions s2 [Q]⟩ s1 = true ↔
      a1.Content = a2.Content := by
    rw [dao.selects_iff_single [Q] s2 s1 (by rw [ht2]; simp) (by rw [ht1]; simp), ht1, ht2]
    simp [hu1]
  have key : dao.submitAll [Q] [s1, s2] [] =
      [⟨s1.SurveyID, s1.Time, decide (a1.Content ≠ a2.Content), s1.Answers⟩, s2] := by
    unfold dao.submitAll
    simp only [List.foldl_cons, List.foldl_nil]
    rw [dao.SaveAnswerSheet_mem [] s1, if_neg hm1]
    simp only [List.find?_nil, List.nil_append]
    rw [dao.SaveAnswerSheet_mem [s1] s2, if_neg hm2]
    obtain ⟨sid1, t1, u1, ans1⟩ := s1
    obtain ⟨sid2, t2, u2, ans2⟩ := s2
    simp only at hu1 hu2
    subst hu1 hu2
    by_cases hc : a1.Content = a2.Content
    · have hs := hsel.2 hc
      simp [List.find?, hs, dao.setUniqueFirst, hc]
    · have hs : ¬ dao.Filter.selects ⟨true, dao.matchConditions ⟨sid2, t2, true, ans2⟩ [Q]⟩
          ⟨sid1, t1, true, ans1⟩ = true := fun h => hc (hsel.1 h)
      simp [List.find?, hs, hc]
  refine ⟨key, by rw [key]; rfl, ?_⟩
  intro d1 d2 hd
  rw [key] at hd
  simp only [List.cons.injEq, and_true] at hd
  obtain ⟨hd1, hd2⟩ := hd
  subst hd1 hd2
  exact ⟨hu2, by simp⟩

/-- C3 at two sheets answering the tracked question 7 with "A" both times: the first stored
sheet is demoted, the second is unique. -/
theorem two_submissions_single_tracked_witness :
    dao.submitAll [7]
        [⟨1, "t1", true, [⟨7, 1, "q", "A"⟩, ⟨8, 2, "r", "x"⟩]⟩,
         ⟨1, "t2", true, [⟨8, 2, "r", "y"⟩, ⟨7, 1, "q", "A"⟩]⟩] [] =
      [⟨1, "t1", false, [⟨7, 1, "q", "A"⟩, ⟨8, 2, "r", "x"⟩]⟩,
       ⟨1, "t2", true, [⟨8, 2, "r", "y"⟩, ⟨7, 1, "q", "A"⟩]⟩] :=
  (two_submissions_single_tracked 7
    ⟨1, "t1", true, [⟨7, 1, "q", "A"⟩, ⟨8, 2, "r", "x"⟩]⟩
    ⟨1, "t2", true, [⟨8, 2, "r", "y"⟩, ⟨7, 1, "q", "A"⟩]⟩
    ⟨7, 1, "q", "A"⟩ ⟨7, 1, "q", "A"⟩ (by decide) (by decide) rfl rfl).1

/-! ### Statistics over no answer sheets -/

/-- A loop appending one element per iteration builds the mapped list. -/
theorem foldl_append_singleton {α β : Type} (f : α → β) (l : List α) (init : List β) :
    l.foldl (fun acc x => acc ++ [f x]) init = init ++ l.map f := by
  induction l generalizing init with
  | nil => simp
  | cons x rest ih =>
    rw [List.foldl_cons, ih]
    simp

/-- C6: over an empty list of answer sheets the statistics hold exactly one entry per question,
in the given order, with the question's serial number, subject and type; its options are one
entry per configured option (same serial number and content), plus one synthetic "other" entry
with serial number 0 exactly when the question allows an other option; every entry has count 0
and rank 1. One question with two options and the other option allowed yields three entries. -/
theorem GetSurveyStatistics_empty (questions : List model.Question)
    (getOptions : Int → List model.Option) :
    GetSurveyStatistics questions getOptions [] =
      questions.map (fun q =>
        ⟨q.SerialNum, q.Subject, q.QuestionType,
          (getOptions q.ID).map (fun o => (⟨o.SerialNum, o.Content, 0, 1⟩ : getOptionCount)) ++
            (if q.OtherOption then [⟨0, "其他", 0, 1⟩] else [])⟩) ∧
    (GetSurveyStatistics questions getOptions []).length = questions.length ∧
    (∀ r ∈ GetSurveyStatistics questions getOptions [], ∀ e ∈ r.Options,
      e.Count = 0 ∧ e.Rank = 1) ∧
    GetSurveyStatistics [⟨4, 2, 1, "colour", 1, true⟩]
        (fun _ => [⟨4, 1, "red"⟩, ⟨4, 2, "blue"⟩]) [] =
      [⟨1, "colour", 1, [⟨1, "red", 0, 1⟩, ⟨2, "blue", 0, 1⟩, ⟨0, "其他", 0, 1⟩]⟩] := by
  have key : GetSurveyStatistics questions getOptions [] =
      questions.map (fun q =>
        ⟨q.SerialNum, q.Subject, q.QuestionType,
          (getOptions q.ID).map (fun o => (⟨o.SerialNum, o.Content, 0, 1⟩ : getOptionCount)) ++
            (if q.OtherOption then [⟨0, "其他", 0, 1⟩] else [])⟩) := by
    unfold GetSurveyStatistics emptyStatistics
    simp only [List.length_nil, if_true]
    rw [foldl_append_singleton, List.nil_append]
    apply List.map_congr_left
    intro q _
    rw [foldl_append_singleton, List.nil_append]
    by_cases h : q.OtherOption = true <;> simp [h]
  refine ⟨key, ?_, ?_, by decide⟩
  · rw [key, List.length_map]
  · rw [key]
    intro r hr e he
    obtain ⟨q, _, rfl⟩ := List.mem_map.1 hr
    simp only [List.mem_append, List.mem_map] at he
    rcases he with ⟨o, _, rfl⟩ | he
    · exact ⟨rfl, rfl⟩
    · by_cases h : q.OtherOption = true
      · rw [if_pos h, List.mem_singleton] at he
        subst he
        exact ⟨rfl, rfl⟩
      · rw [if_neg h] at he
        exact absurd he (List.not_mem_nil _)

/-! ### `SaveAnswerSheet`: untracked sheets, error propagation, frame -/

namespace dao

theorem matchConditions_untracked (sheet : AnswerSheet) (qids : List Int)
    (h : ∀ a ∈ sheet.Answers, contains qids a.QuestionID = false) :
    matchConditions sheet qids = [] := by
  rw [matchConditions_eq]
  unfold trackedAnswers
  have : sheet.Answers.filter (fun a => contains qids a.QuestionID) = [] := by
    rw [List.filter_eq_nil_iff]
    intro a ha
    rw [h a ha]
    simp
  rw [this]
  rfl

/-- The single-document update either changes nothing (no sheet is selected) or rewrites
exactly one sheet, the first selected one, touching only its flag. -/
theorem setUniqueFirst_split (f : Filter) (b : Bool) (st : List AnswerSheet) :
    ((∀ d ∈ st, f.selects d = false) ∧ setUniqueFirst f b st = st) ∨
    ∃ pre d post, st = pre ++ d :: post ∧ (∀ x ∈ pre, f.selects x = false) ∧
      f.selects d = true ∧
      setUniqueFirst f b st = pre ++ ⟨d.SurveyID, d.Time, b, d.Answers⟩ :: post := by
  induction st with
  | nil => exact Or.inl ⟨fun _ h => absurd h (List.not_mem_nil _), rfl⟩
  | cons d rest ih =>
    by_cases hsel : f.selects d = true
    · refine Or.inr ⟨[], d, rest, rfl, fun _ h => absurd h (List.not_mem_nil _), hsel, ?_⟩
      simp [setUniqueFirst, hsel]
    · have hsel2 : f.selects d = false := by simpa using hsel
      rcases ih with ⟨h1, h2⟩ | ⟨pre, x, post, h1, h2, h3, h4⟩
      · refine Or.inl ⟨?_, ?_⟩
        · intro y hy
          rcases List.mem_cons.1 hy with h | h
          · rw [h]
            exact hsel2
          · exact h1 y h
        · simp [setUniqueFirst, hsel2, h2]
      · refine Or.inr ⟨d :: pre, x, post, by rw [h1]; rfl, ?_, h3, ?_⟩
        · intro y hy
          rcases List.mem_cons.1 hy with h | h
          · rw [h]
            exact hsel2
          · exact h2 y h
        · simp [setUniqueFirst, hsel2, h4]

end dao

/-- C7: when no answer of the sheet has a tracked question ID, `SaveAnswerSheet` invokes a
single store operation, the insert of the sheet exactly as submitted (no find, no update), and
returns that insert's result; on the in-memory store the sheet is appended and every stored
sheet is left unchanged, so `n` repetitions add exactly `n` sheets. -/
theorem SaveAnswerSheet_untracked {σ E : Type} (mongo : dao.Collection σ E) (st : σ)
    (sheet : dao.AnswerSheet) (qids : List Int) (n : Nat)
    (h : ∀ a ∈ sheet.Answers, dao.contains qids a.QuestionID = false) :
    dao.SaveAnswerSheet (dao.logged mongo) (st, []) sheet qids =
      (((mongo.InsertOne st sheet).1,
        [dao.StoreCall.insertOne sheet (mongo.InsertOne st sheet).2]),
       (mongo.InsertOne st sheet).2) ∧
    (∀ mem : List dao.AnswerSheet,
      dao.SaveAnswerSheet dao.memCollection mem sheet qids = (mem ++ [sheet], none)) ∧
    (∀ mem : List dao.AnswerSheet,
      dao.submitAll qids (List.replicate n sheet) mem = mem ++ List.replicate n sheet ∧
      (dao.submitAll qids (List.replicate n sheet) mem).length = mem.length + n) := by
  have hmc := dao.matchConditions_untracked sheet qids h
  have hmem : ∀ mem : List dao.AnswerSheet,
      dao.SaveAnswerSheet dao.memCollection mem sheet qids = (mem ++ [sheet], none) := by
    intro mem
    rw [dao.SaveAnswerSheet_mem, if_pos hmc]
  have hrep : ∀ mem : List dao.AnswerSheet,
      dao.submitAll qids (List.replicate n sheet) mem = mem ++ List.replicate n sheet := by
    induction n with
    | zero =>
      intro mem
      simp [dao.submitAll]
    | succ k ih =>
      intro mem
      have ih2 := ih (mem ++ [sheet])
      unfold dao.submitAll at ih2 ⊢
      rw [List.replicate_succ, List.foldl_cons, hmem, ih2]
      simp
  refine ⟨?_, hmem, ?_⟩
  · unfold dao.SaveAnswerSheet
    simp [hmc, dao.logged]
  · intro mem
    refine ⟨hrep mem, ?_⟩
    rw [hrep mem]
    simp

/-- C7 at an empty tracked set: two repetitions of a sheet add two sheets to a store. -/
theorem SaveAnswerSheet_untracked_witness :
    dao.submitAll [] (List.replicate 2 ⟨1, "t", true, [⟨7, 1, "q", "A"⟩]⟩)
        [⟨1, "t0", true, [⟨7, 1, "q", "A"⟩]⟩] =
      [⟨1, "t0", true, [⟨7, 1, "q", "A"⟩]⟩, ⟨1, "t", true, [⟨7, 1, "q", "A"⟩]⟩,
       ⟨1, "t", true, [⟨7, 1, "q", "A"⟩]⟩] :=
  ((SaveAnswerSheet_untracked dao.memCollection [] ⟨1, "t", true, [⟨7, 1, "q", "A"⟩]⟩ [] 2
    (by decide)).2.2 [⟨1, "t0", true, [⟨7, 1, "q", "A"⟩]⟩]).1

/-- C8: for every store behaviour, with every store operation `SaveAnswerSheet` invokes
recorded in order: the call returns the error `e` exactly when an invoked operation failed
with `e`; the returned error is the last invoked operation's; no operation before the last one
failed (nothing is invoked after a failure); a failing `FindOne` is the only operation invoked
and the store is left as `FindOne` left it; a not-found `FindOne` is followed by the insert of
the sheet as submitted, whose result is the result of the call. -/
theorem SaveAnswerSheet_error_propagation {σ E : Type} (mongo : dao.Collection σ E) (st : σ)
    (sheet : dao.AnswerSheet) (qids : List Int) :
    (∀ e, (dao.SaveAnswerSheet (dao.logged mongo) (st, []) sheet qids).2 = some e ↔
      ∃ c ∈ (dao.SaveAnswerSheet (dao.logged mongo) (st, []) sheet qids).1.2,
        c.error = some e) ∧
    (dao.SaveAnswerSheet (dao.logged mongo) (st, []) sheet qids).2 =
      (dao.SaveAnswerSheet (dao.logged mongo) (st, []) sheet qids).1.2.getLast?.bind
        dao.StoreCall.error ∧
    (∀ c ∈ (dao.SaveAnswerSheet (dao.logged mongo) (st, []) sheet qids).1.2.dropLast,
      c.error = none) ∧
    (∀ e, dao.matchConditions sheet qids ≠ [] →
      (mongo.FindOne st ⟨true, dao.matchConditions sheet qids⟩).2 = dao.FindResult.failed e →
      dao.SaveAnswerSheet (dao.logged mongo) (st, []) sheet qids =
        (((mongo.FindOne st ⟨true, dao.matchConditions sheet qids⟩).1,
          [dao.StoreCall.findOne ⟨true, dao.matchConditions sheet qids⟩
            (dao.FindResult.failed e)]), some e)) ∧
    (dao.matchConditions sheet qids ≠ [] →
      (mongo.FindOne st ⟨true, dao.matchConditions sheet qids⟩).2 =
        dao.FindResult.errNoDocuments →
      dao.SaveAnswerSheet (dao.logged mongo) (st, []) sheet qids =
        (((mongo.InsertOne (mongo.FindOne st ⟨true, dao.matchConditions sheet qids⟩).1
            sheet).1,
          [dao.StoreCall.findOne ⟨true, dao.matchConditions sheet qids⟩
            dao.FindResult.errNoDocuments,
           dao.StoreCall.insertOne sheet
            (mongo.InsertOne (mongo.FindOne st ⟨true, dao.matchConditions sheet qids⟩).1
              sheet).2]),
         (mongo.InsertOne (mongo.FindOne st ⟨true, dao.matchConditions sheet qids⟩).1
            sheet).2)) := by
  unfold dao.SaveAnswerSheet
  simp only [List.length_eq_zero]
  by_cases hmc : dao.matchConditions sheet qids = []
  · simp [hmc, dao.logged, dao.StoreCall.error]
  · simp only [hmc, if_false, dao.logged, List.nil_append]
    rcases hf : mongo.FindOne st ⟨true, dao.matchConditions sheet qids⟩ with ⟨st1, res⟩
    cases res with
    | failed err => simp [dao.StoreCall.error]
    | errNoDocuments =>
      simp only [List.singleton_append]
      cases hi : (mongo.InsertOne st1 sheet).2 <;> simp [dao.StoreCall.error, hi]
    | found doc =>
      simp only [List.singleton_append]
      rcases hu : mongo.UpdateOne st1 ⟨true, dao.matchConditions sheet qids⟩ false with
        ⟨st2, uerr⟩
      cases uerr with
      | some err => simp [dao.StoreCall.error]
      | none =>
        simp only [List.cons_append, List.nil_append]
        cases hi : (mongo.InsertOne st2
          ⟨sheet.SurveyID, sheet.Time, true, sheet.Answers⟩).2 <;>
          simp [dao.StoreCall.error, hi]

/-- C9: on the in-memory store a `SaveAnswerSheet` call succeeds and leaves the previous store
followed by exactly one appended sheet with the submitted survey ID, time and answers. Either
no stored sheet changed and the appended sheet is the submitted one, or exactly one stored
sheet changed: it was `unique = true`, satisfied a match condition of the submission, kept its
survey ID, time and answers and now has `unique = false`; the appended sheet is then
`unique = true` whatever the submitted flag is. -/
theorem SaveAnswerSheet_frame (st : List dao.AnswerSheet) (sheet : dao.AnswerSheet)
    (qids : List Int) :
    (dao.SaveAnswerSheet dao.memCollection st sheet qids).2 = none ∧
    ∃ st1 new, (dao.SaveAnswerSheet dao.memCollection st sheet qids).1 = st1 ++ [new] ∧
      new.SurveyID = sheet.SurveyID ∧ new.Time = sheet.Time ∧ new.Answers = sheet.Answers ∧
      ((st1 = st ∧ new = sheet) ∨
        ∃ pre d post, st = pre ++ d :: post ∧
          st1 = pre ++ ⟨d.SurveyID, d.Time, false, d.Answers⟩ :: post ∧
          d.Unique = true ∧
          (∃ c ∈ dao.matchConditions sheet qids, c.holds d = true) ∧
          new.Unique = true) := by
  rw [dao.SaveAnswerSheet_mem]
  by_cases hmc : dao.matchConditions sheet qids = []
  · rw [if_pos hmc]
    exact ⟨rfl, st, sheet, rfl, rfl, rfl, rfl, Or.inl ⟨rfl, rfl⟩⟩
  · rw [if_neg hmc]
    cases hf : st.find? (dao.Filter.selects ⟨true, dao.matchConditions sheet qids⟩) with
    | none => exact ⟨rfl, st, sheet, rfl, rfl, rfl, rfl, Or.inl ⟨rfl, rfl⟩⟩
    | some d0 =>
      refine ⟨rfl, _, ⟨sheet.SurveyID, sheet.Time, true, sheet.Answers⟩, rfl, rfl, rfl, rfl, ?_⟩
      rcases dao.setUniqueFirst_split ⟨true, dao.matchConditions sheet qids⟩ false st with
        ⟨h1, _⟩ | ⟨pre, d, post, h1, _, h3, h4⟩
      · have hd0 := List.find?_some hf
        have hm := List.mem_of_find?_eq_some hf
        rw [h1 d0 hm] at hd0
        exact absurd hd0 (by simp)
      · refine Or.inr ⟨pre, d, post, h1, h4, ?_, ?_, rfl⟩
        · unfold dao.Filter.selects at h3
          simp only [Bool.and_eq_true, decide_eq_true_eq] at h3
          exact h3.1
        · unfold dao.Filter.selects at h3
          simp only [Bool.and_eq_true, decide_eq_true_eq, List.any_eq_true] at h3
          exact h3.2

/-! ### Go maps -/

namespace GoMap

theorem lookup_set {K V : Type} [DecidableEq K] (m : List (K × V)) (k k2 : K) (v : V) :
    lookup (set m k v) k2 = if k = k2 then some v else lookup m k2 := by
  induction m with
  | nil => simp [set, lookup]
  | cons p rest ih =>
    obtain ⟨k1, v1⟩ := p
    unfold set
    by_cases h1 : k1 = k
    · subst h1
      by_cases h2 : k1 = k2
      · simp [lookup, h2]
      · simp [lookup, h2]
    · rw [if_neg h1]
      by_cases h2 : k1 = k2
      · subst h2
        have h3 : ¬ k = k1 := fun e => h1 e.symm
        simp [lookup, h3]
      · simp [lookup, h2, ih]

theorem lookup_set_self {K V : Type} [DecidableEq K] (m : List (K × V)) (k : K) (v : V) :
    lookup (set m k v) k = some v := by
  rw [lookup_set, if_pos rfl]

theorem lookup_set_ne {K V : Type} [DecidableEq K] (m : List (K × V)) {k k2 : K} (v : V)
    (h : k ≠ k2) : lookup (set m k v) k2 = lookup m k2 := by
  rw [lookup_set, if_neg h]

theorem lookup_some_mem {K V : Type} [DecidableEq K] {m : List (K × V)} {k : K} {v : V}
    (h : lookup m k = some v) : (k, v) ∈ m := by
  induction m with
  | nil => simp [lookup] at h
  | cons p rest ih =>
    obtain ⟨k1, v1⟩ := p
    unfold lookup at h
    by_cases h1 : k1 = k
    · rw [if_pos h1] at h
      cases h
      subst h1
      exact List.mem_cons_self _ _
    · rw [if_neg h1] at h
      exact List.mem_cons_of_mem _ (ih h)

theorem mem_keys_iff {K V : Type} [DecidableEq K] (m : List (K × V)) (k : K) :
    k ∈ keys m ↔ ∃ v, lookup m k = some v := by
  induction m with
  | nil => simp [keys, lookup]
  | cons p rest ih =>
    obtain ⟨k1, v1⟩ := p
    unfold keys at ih ⊢
    unfold lookup
    by_cases h1 : k1 = k
    · subst h1
      simp
    · have h2 : ¬ k = k1 := fun e => h1 e.symm
      simp [h1, h2, ih]

theorem getD_set {K V : Type} [DecidableEq K] (m : List (K × V)) (k k2 : K) (v d : V) :
    getD (set m k v) k2 d = if k = k2 then v else getD m k2 d := by
  unfold getD
  rw [lookup_set]
  by_cases h : k = k2 <;> simp [h]

/-- A loop of map writes: a key bound afterwards is bound to the value written by one of the
iterations, or was bound to that value before. -/
theorem lookup_foldl_set_some {K V α : Type} [DecidableEq K] (kf : α → K) (vf : α → V)
    (l : List α) (m0 : List (K × V)) (k : K) (v : V)
    (h : lookup (l.foldl (fun m x => set m (kf x) (vf x)) m0) k = some v) :
    (∃ x ∈ l, kf x = k ∧ vf x = v) ∨ lookup m0 k = some v := by
  induction l generalizing m0 with
  | nil => exact Or.inr h
  | cons x rest ih =>
    rw [List.foldl_cons] at h
    rcases ih _ h with ⟨y, hy, h1, h2⟩ | h3
    · exact Or.inl ⟨y, List.mem_cons_of_mem _ hy, h1, h2⟩
    · rw [lookup_set] at h3
      by_cases hk : kf x = k
      · rw [if_pos hk] at h3
        cases h3
        exact Or.inl ⟨x, List.mem_cons_self _ _, hk, rfl⟩
      · rw [if_neg hk] at h3
        exact Or.inr h3

/-- A loop of map writes: a key unbound afterwards was written by no iteration and was unbound
before. -/
theorem lookup_foldl_set_none {K V α : Type} [DecidableEq K] (kf : α → K) (vf : α → V)
    (l : List α) (m0 : List (K × V)) (k : K)
    (h : lookup (l.foldl (fun m x => set m (kf x) (vf x)) m0) k = none) :
    (∀ x ∈ l, kf x ≠ k) ∧ lookup m0 k = none := by
  induction l generalizing m0 with
  | nil => exact ⟨fun _ hx => absurd hx (List.not_mem_nil _), h⟩
  | cons x rest ih =>
    rw [List.foldl_cons] at h
    obtain ⟨h1, h2⟩ := ih _ h
    rw [lookup_set] at h2
    by_cases hk : kf x = k
    · rw [if_pos hk] at h2
      cases h2
    · rw [if_neg hk] at h2
      refine ⟨?_, h2⟩
      intro y hy
      rcases List.mem_cons.1 hy with e | e
      · rw [e]
        exact hk
      · exact h1 y e

end GoMap

/-! ### The accumulator `optionCounts` -/

theorem lookup_ensureMap (m : List (Int × List (Int × Int))) (key k2 : Int) :
    GoMap.lookup (ensureMap m key) k2 =
      if key = k2 then some (GoMap.getD m key []) else GoMap.lookup m k2 := by
  unfold ensureMap
  cases h : GoMap.lookup m key with
  | none =>
    simp only
    rw [GoMap.lookup_set]
    by_cases hk : key = k2
    · subst hk
      simp [GoMap.getD, h]
    · simp [hk]
  | some inner =>
    simp only
    by_cases hk : key = k2
    · subst hk
      simp [GoMap.getD, h]
    · simp [hk]

theorem getD_ensureMap (m : List (Int × List (Int × Int))) (key : Int) :
    GoMap.getD (ensureMap m key) key [] = GoMap.getD m key [] := by
  unfold GoMap.getD
  rw [lookup_ensureMap, if_pos rfl]
  rfl

theorem lookup_setCount (m : List (Int × List (Int × Int))) (key k v k2 : Int) :
    GoMap.lookup (setCount m key k v) k2 =
      if key = k2 then some (GoMap.set (GoMap.getD m key []) k v) else GoMap.lookup m k2 := by
  unfold setCount
  simp only
  rw [GoMap.lookup_set, getD_ensureMap]
  by_cases hk : key = k2
  · simp [hk]
  · simp [hk, lookup_ensureMap]

theorem lookup_incrCount (m : List (Int × List (Int × Int))) (key k k2 : Int) :
    GoMap.lookup (incrCount m key k) k2 =
      if key = k2 then
        some (GoMap.set (GoMap.getD m key []) k (GoMap.getD (GoMap.getD m key []) k 0 + 1))
      else GoMap.lookup m k2 := by
  unfold incrCount
  simp only
  rw [GoMap.lookup_set, getD_ensureMap]
  by_cases hk : key = k2
  · simp [hk]
  · simp [hk, lookup_ensureMap]

theorem accumulatedCount_incrCount (m : List (Int × List (Int × Int))) (key k qid sn : Int) :
    accumulatedCount (incrCount m key k) qid sn =
      accumulatedCount m qid sn + if key = qid ∧ k = sn then 1 else 0 := by
  unfold accumulatedCount
  have h1 : GoMap.getD (incrCount m key k) qid [] =
      if key = qid then
        GoMap.set (GoMap.getD m key []) k (GoMap.getD (GoMap.getD m key []) k 0 + 1)
      else GoMap.getD m qid [] := by
    by_cases hk : key = qid <;> simp [hk, GoMap.getD, lookup_incrCount]
  rw [h1]
  by_cases hk : key = qid
  · subst hk
    rw [if_pos rfl, GoMap.getD_set]
    by_cases hs : k = sn
    · subst hs
      simp
    · simp [hs]
  · simp [hk]

/-- The zero-initialising loop, started on a map in which the question is already bound. -/
theorem lookup_foldl_setCount (key : Int) (options : List model.Option)
    (m : List (Int × List (Int × Int))) (inner0 : List (Int × Int))
    (h : GoMap.lookup m key = some inner0) (k2 : Int) :
    GoMap.lookup (options.foldl (fun oc option => setCount oc key option.SerialNum 0) m) k2 =
      if key = k2 then
        some (options.foldl (fun inner option => GoMap.set inner option.SerialNum 0) inner0)
      else GoMap.lookup m k2 := by
  induction options generalizing m inner0 with
  | nil =>
    by_cases hk : key = k2
    · subst hk
      simp [h]
    · simp [hk]
  | cons o rest ih =>
    rw [List.foldl_cons, List.foldl_cons]
    have hg : GoMap.getD m key [] = inner0 := by
      unfold GoMap.getD
      rw [h]
      rfl
    have h1 : GoMap.lookup (setCount m key o.SerialNum 0) key =
        some (GoMap.set inner0 o.SerialNum 0) := by
      rw [lookup_setCount, if_pos rfl, hg]
    rw [ih _ _ h1]
    by_cases hk : key = k2
    · simp [hk]
    · simp [hk, lookup_setCount]

theorem lookup_initCounts (oc : List (Int × List (Int × Int))) (question : model.Question)
    (options : List model.Option) (k2 : Int) :
    GoMap.lookup (initCounts oc question options) k2 =
      if question.ID = k2 ∧ GoMap.lookup oc question.ID = none then some (zeroCounts options)
      else GoMap.lookup oc k2 := by
  unfold initCounts
  cases h : GoMap.lookup oc question.ID with
  | some inner => simp
  | none =>
    simp only
    have h1 : GoMap.lookup (ensureMap oc question.ID) question.ID = some [] := by
      rw [lookup_ensureMap, if_pos rfl]
      unfold GoMap.getD
      rw [h]
      rfl
    rw [lookup_foldl_setCount _ _ _ _ h1]
    by_cases hk : question.ID = k2
    · simp [hk, zeroCounts]
    · simp [hk, lookup_ensureMap]

theorem zeroCounts_getD (options : List model.Option) (sn : Int) :
    GoMap.getD (zeroCounts options) sn 0 = 0 := by
  unfold GoMap.getD
  cases h : GoMap.lookup (zeroCounts options) sn with
  | none => rfl
  | some v =>
    unfold zeroCounts at h
    rcases GoMap.lookup_foldl_set_some (fun o : model.Option => o.SerialNum) (fun _ => (0 : Int))
      options [] sn v h with ⟨_, _, _, hv⟩ | h2
    · simp [← hv]
    · simp [GoMap.lookup] at h2

theorem zeroCounts_keys (options : List model.Option) (sn : Int) :
    sn ∈ GoMap.keys (zeroCounts options) ↔ ∃ o ∈ options, o.SerialNum = sn := by
  rw [GoMap.mem_keys_iff]
  constructor
  · rintro ⟨v, hv⟩
    unfold zeroCounts at hv
    rcases GoMap.lookup_foldl_set_some (fun o : model.Option => o.SerialNum) (fun _ => (0 : Int))
      options [] sn v hv with ⟨o, ho, hk, _⟩ | h2
    · exact ⟨o, ho, hk⟩
    · simp [GoMap.lookup] at h2
  · rintro ⟨o, ho, hk⟩
    cases h : GoMap.lookup (zeroCounts options) sn with
    | some v => exact ⟨v, rfl⟩
    | none =>
      unfold zeroCounts at h
      have := (GoMap.lookup_foldl_set_none (fun o : model.Option => o.SerialNum)
        (fun _ => (0 : Int)) options [] sn h).1 o ho
      exact absurd hk this

theorem accumulatedCount_initCounts (oc : List (Int × List (Int × Int)))
    (question : model.Question) (options : List model.Option) (qid sn : Int) :
    accumulatedCount (initCounts oc question options) qid sn = accumulatedCount oc qid sn := by
  unfold accumulatedCount
  have h1 : GoMap.getD (initCounts oc question options) qid [] =
      if question.ID = qid ∧ GoMap.lookup oc question.ID = none then zeroCounts options
      else GoMap.getD oc qid [] := by
    by_cases hk : question.ID = qid ∧ GoMap.lookup oc question.ID = none
    · rw [if_pos hk]
      unfold GoMap.getD
      rw [lookup_initCounts, if_pos hk]
      rfl
    · rw [if_neg hk]
      unfold GoMap.getD
      rw [lookup_initCounts, if_neg hk]
  rw [h1]
  by_cases hk : question.ID = qid ∧ GoMap.lookup oc question.ID = none
  · rw [if_pos hk, zeroCounts_getD]
    obtain ⟨hq, hn⟩ := hk
    subst hq
    simp [GoMap.getD, hn, GoMap.lookup]
  · rw [if_neg hk]

/-! ### The lookup maps -/

theorem addOption_foldl (qid : Int) (options : List model.Option) (m : StatMaps)
    (ca : List (String × model.Option)) (sa : List (Int × model.Option))
    (hca : GoMap.lookup m.optionAnswerMap qid = some ca)
    (hsa : GoMap.lookup m.optionSerialNumMap qid = some sa) :
    (options.foldl (addOption qid) m).questionMap = m.questionMap ∧
    (options.foldl (addOption qid) m).optionsMap = m.optionsMap ∧
    (∀ k, GoMap.lookup (options.foldl (addOption qid) m).optionAnswerMap k =
      if qid = k then
        some (options.foldl (fun inner option => GoMap.set inner option.Content option) ca)
      else GoMap.lookup m.optionAnswerMap k) ∧
    (∀ k, GoMap.lookup (options.foldl (addOption qid) m).optionSerialNumMap k =
      if qid = k then
        some (options.foldl (fun inner option => GoMap.set inner option.SerialNum option) sa)
      else GoMap.lookup m.optionSerialNumMap k) := by
  induction options generalizing m ca sa with
  | nil =>
    refine ⟨rfl, rfl, ?_, ?_⟩
    · intro k
      by_cases hk : qid = k
      · subst hk
        simp [hca]
      · simp [hk]
    · intro k
      by_cases hk : qid = k
      · subst hk
        simp [hsa]
      · simp [hk]
  | cons o rest ih =>
    rw [List.foldl_cons]
    have hca2 : GoMap.lookup (addOption qid m o).optionAnswerMap qid =
        some (GoMap.set ca o.Content o) := by
      simp [addOption, GoMap.lookup_set, GoMap.getD, hca]
    have hsa2 : GoMap.lookup (addOption qid m o).optionSerialNumMap qid =
        some (GoMap.set sa o.SerialNum o) := by
      simp [addOption, GoMap.lookup_set, GoMap.getD, hsa]
    obtain ⟨h1, h2, h3, h4⟩ := ih (addOption qid m o) _ _ hca2 hsa2
    refine ⟨by rw [h1]; rfl, by rw [h2]; rfl, ?_, ?_⟩
    · intro k
      rw [h3 k]
      by_cases hk : qid = k
      · simp [hk]
      · simp [hk, addOption, GoMap.lookup_set]
    · intro k
      rw [h4 k]
      by_cases hk : qid = k
      · simp [hk]
      · simp [hk, addOption, GoMap.lookup_set]

theorem addQuestion_lookup (getOptions : Int → List model.Option) (m : StatMaps)
    (q : model.Question) :
    (∀ k, GoMap.lookup (addQuestion getOptions m q).questionMap k =
      if q.ID = k then some q else GoMap.lookup m.questionMap k) ∧
    (∀ k, GoMap.lookup (addQuestion getOptions m q).optionsMap k =
      if q.ID = k then some (getOptions q.ID) else GoMap.lookup m.optionsMap k) ∧
    (∀ k, GoMap.lookup (addQuestion getOptions m q).optionAnswerMap k =
      if q.ID = k then some (contentIndex (getOptions q.ID))
      else GoMap.lookup m.optionAnswerMap k) ∧
    (∀ k, GoMap.lookup (addQuestion getOptions m q).optionSerialNumMap k =
      if q.ID = k then some (serialIndex (getOptions q.ID))
      else GoMap.lookup m.optionSerialNumMap k) := by
  unfold addQuestion
  simp only
  obtain ⟨h1, h2, h3, h4⟩ := addOption_foldl q.ID (getOptions q.ID)
    { questionMap := GoMap.set m.questionMap q.ID q
      optionAnswerMap := GoMap.set m.optionAnswerMap q.ID []
      optionSerialNumMap := GoMap.set m.optionSerialNumMap q.ID []
      optionsMap := GoMap.set m.optionsMap q.ID (getOptions q.ID) } [] []
    (GoMap.lookup_set_self _ _ _) (GoMap.lookup_set_self _ _ _)
  refine ⟨?_, ?_, ?_, ?_⟩
  · intro k
    rw [h1, GoMap.lookup_set]
  · intro k
    rw [h2, GoMap.lookup_set]
  · intro k
    rw [h3 k]
    by_cases hk : q.ID = k
    · simp [hk, contentIndex]
    · simp [hk, GoMap.lookup_set]
  · intro k
    rw [h4 k]
    by_cases hk : q.ID = k
    · simp [hk, serialIndex]
    · simp [hk, GoMap.lookup_set]

/-- The maps after the loop over the questions, started from maps `m`: a key carried by some
question is bound to the last such question, to its options and to the two indexes of its
options; other keys are as in `m`. -/
theorem foldl_addQuestion_lookup (getOptions : Int → List model.Option)
    (questions : List model.Question) (m : StatMaps) (k : Int) :
    (∀ q, GoMap.lookup (questions.foldl (addQuestion getOptions) m).questionMap k = some q →
      (q ∈ questions ∧ q.ID = k) ∨ GoMap.lookup m.questionMap k = some q) ∧
    ((∃ q ∈ questions, q.ID = k) →
      (∃ q ∈ questions, q.ID = k ∧
        GoMap.lookup (questions.foldl (addQuestion getOptions) m).questionMap k = some q) ∧
      GoMap.lookup (questions.foldl (addQuestion getOptions) m).optionsMap k =
        some (getOptions k) ∧
      GoMap.lookup (questions.foldl (addQuestion getOptions) m).optionAnswerMap k =
        some (contentIndex (getOptions k)) ∧
      GoMap.lookup (questions.foldl (addQuestion getOptions) m).optionSerialNumMap k =
        some (serialIndex (getOptions k))) ∧
    ((∀ q ∈ questions, q.ID ≠ k) →
      GoMap.lookup (questions.foldl (addQuestion getOptions) m).questionMap k =
        GoMap.lookup m.questionMap k ∧
      GoMap.lookup (questions.foldl (addQuestion getOptions) m).optionsMap k =
        GoMap.lookup m.optionsMap k ∧
      GoMap.lookup (questions.foldl (addQuestion getOptions) m).optionAnswerMap k =
        GoMap.lookup m.optionAnswerMap k ∧
      GoMap.lookup (questions.foldl (addQuestion getOptions) m).optionSerialNumMap k =
        GoMap.lookup m.optionSerialNumMap k) := by
  induction questions generalizing m with
  | nil =>
    refine ⟨fun q h => Or.inr h, ?_, fun _ => ⟨rfl, rfl, rfl, rfl⟩⟩
    rintro ⟨q, hq, _⟩
    exact absurd hq (List.not_mem_nil _)
  | cons q0 rest ih =>
    rw [List.foldl_cons]
    obtain ⟨a1, a2, a3, a4⟩ := addQuestion_lookup getOptions m q0
    obtain ⟨i1, i2, i3⟩ := ih (addQuestion getOptions m q0)
    refine ⟨?_, ?_, ?_⟩
    · intro q hq
      rcases i1 q hq with ⟨h1, h2⟩ | h
      · exact Or.inl ⟨List.mem_cons_of_mem _ h1, h2⟩
      · rw [a1 k] at h
        by_cases hk : q0.ID = k
        · rw [if_pos hk] at h
          cases h
          exact Or.inl ⟨List.mem_cons_self _ _, hk⟩
        · rw [if_neg hk] at h
          exact Or.inr h
    · rintro ⟨q, hq, hqk⟩
      by_cases hrest : ∃ q2 ∈ rest, q2.ID = k
      · obtain ⟨⟨q3, hq3, hq3k, hl⟩, h2, h3, h4⟩ := i2 hrest
        exact ⟨⟨q3, List.mem_cons_of_mem _ hq3, hq3k, hl⟩, h2, h3, h4⟩
      · have hnone : ∀ q2 ∈ rest, q2.ID ≠ k := fun q2 h2 e => hrest ⟨q2, h2, e⟩
        obtain ⟨j1, j2, j3, j4⟩ := i3 hnone
        have hq0 : q0.ID = k := by
          rcases List.mem_cons.1 hq with e | e
          · rw [← e]
            exact hqk
          · exact absurd hqk (hnone q e)
        rw [j1, j2, j3, j4, a1 k, a2 k, a3 k, a4 k, if_pos hq0, if_pos hq0, if_pos hq0,
          if_pos hq0]
        subst hq0
        exact ⟨⟨q0, List.mem_cons_self _ _, rfl, rfl⟩, rfl, rfl, rfl⟩
    · intro hnone
      have hq0 : q0.ID ≠ k := hnone q0 (List.mem_cons_self _ _)
      obtain ⟨j1, j2, j3, j4⟩ := i3 (fun q2 h2 => hnone q2 (List.mem_cons_of_mem _ h2))
      rw [j1, j2, j3, j4, a1 k, a2 k, a3 k, a4 k]
      simp [hq0]

/-- The question bound in `questionMap` is zero or carries the looked-up key as its ID. -/
theorem questionMap_getD (questions : List model.Question)
    (getOptions : Int → List model.Option) (k : Int) :
    GoMap.getD (buildMaps questions getOptions).questionMap k model.Question.zero =
        model.Question.zero ∨
    (GoMap.getD (buildMaps questions getOptions).questionMap k model.Question.zero).ID = k := by
  unfold GoMap.getD
  cases h : GoMap.lookup (buildMaps questions getOptions).questionMap k with
  | none => exact Or.inl rfl
  | some q =>
    unfold buildMaps at h
    rcases (foldl_addQuestion_lookup getOptions questions ⟨[], [], [], []⟩ k).1 q h with
      ⟨_, h2⟩ | h2
    · exact Or.inr h2
    · simp [GoMap.lookup] at h2

/-- A question that is the only one with its ID is what `questionMap` binds to that ID, and
the other maps bind the ID to its options and their indexes. -/
theorem buildMaps_lookup (questions : List model.Question)
    (getOptions : Int → List model.Option) (q : model.Question) (hq : q ∈ questions)
    (hid : ∀ q2 ∈ questions, q2.ID = q.ID → q2 = q) :
    GoMap.lookup (buildMaps questions getOptions).questionMap q.ID = some q ∧
    GoMap.lookup (buildMaps questions getOptions).optionsMap q.ID = some (getOptions q.ID) ∧
    GoMap.lookup (buildMaps questions getOptions).optionAnswerMap q.ID =
      some (contentIndex (getOptions q.ID)) ∧
    GoMap.lookup (buildMaps questions getOptions).optionSerialNumMap q.ID =
      some (serialIndex (getOptions q.ID)) := by
  unfold buildMaps
  obtain ⟨⟨q3, hq3, hq3k, hl⟩, h2, h3, h4⟩ :=
    (foldl_addQuestion_lookup getOptions questions ⟨[], [], [], []⟩ q.ID).2.1 ⟨q, hq, rfl⟩
  have : q3 = q := hid q3 hq3 hq3k
  subst this
  exact ⟨hl, h2, h3, h4⟩

/-! ### Counting rule -/

theorem countValue_eq (maps : StatMaps) (qid : Int) (oc : List (Int × List (Int × Int)))
    (v : String) : countValue maps qid oc v = incrCount oc qid (voteTarget maps qid v) := by
  unfold countValue voteTarget
  cases GoMap.lookup maps.optionAnswerMap qid with
  | none => rfl
  | some qo =>
    simp only
    cases GoMap.lookup qo v <;> rfl

theorem accumulatedCount_foldl_countValue (maps : StatMaps) (key : Int) (vs : List String)
    (oc : List (Int × List (Int × Int))) (qid sn : Int) :
    accumulatedCount (vs.foldl (countValue maps key) oc) qid sn =
      accumulatedCount oc qid sn +
        if key = qid then (vs.countP (fun v => decide (voteTarget maps key v = sn)) : Int)
        else 0 := by
  induction vs generalizing oc with
  | nil => simp
  | cons v rest ih =>
    rw [List.foldl_cons, ih, countValue_eq, accumulatedCount_incrCount, List.countP_cons]
    by_cases hk : key = qid
    · subst hk
      by_cases hv : voteTarget maps key v = sn
      · simp [hv]
        omega
      · simp [hv]
    · simp [hk]

theorem accumulatedCount_countAnswer (maps : StatMaps) (oc : List (Int × List (Int × Int)))
    (a : dao.Answer) (qid sn : Int) :
    accumulatedCount (countAnswer maps oc a) qid sn =
      accumulatedCount oc qid sn +
        if a.QuestionID = qid ∧
            (GoMap.getD maps.questionMap a.QuestionID model.Question.zero).QuestionType = 1 then
          ((stringsSplit a.Content).countP
            (fun v => decide (voteTarget maps a.QuestionID v = sn)) : Int)
        else 0 := by
  unfold countAnswer
  simp only
  by_cases ht :
      (GoMap.getD maps.questionMap a.QuestionID model.Question.zero).QuestionType = 1
  · rw [if_pos ht, accumulatedCount_foldl_countValue, accumulatedCount_initCounts]
    by_cases hk : a.QuestionID = qid
    · subst hk
      simp [ht]
    · simp [hk]
  · rw [if_neg ht, accumulatedCount_initCounts]
    simp [ht]

theorem accumulatedCount_foldl_countAnswer (maps : StatMaps) (answers : List dao.Answer)
    (oc : List (Int × List (Int × Int))) (qid sn : Int) :
    accumulatedCount (answers.foldl (countAnswer maps) oc) qid sn =
      accumulatedCount oc qid sn +
        if (GoMap.getD maps.questionMap qid model.Question.zero).QuestionType = 1 then
          ((((answers.filter (fun a => decide (a.QuestionID = qid))).flatMap
            (fun a => stringsSplit a.Content)).countP
              (fun v => decide (voteTarget maps qid v = sn)) : Nat) : Int)
        else 0 := by
  induction answers generalizing oc with
  | nil => simp
  | cons a rest ih =>
    rw [List.foldl_cons, ih, accumulatedCount_countAnswer]
    by_cases hk : a.QuestionID = qid
    · subst hk
      by_cases ht :
          (GoMap.getD maps.questionMap a.QuestionID model.Question.zero).QuestionType = 1
      · simp [ht, List.filter_cons, List.countP_append]
        omega
      · simp [ht]
    · simp [hk, List.filter_cons]

/-- The accumulated count of a serial number of a question is, when the question bound to that
ID has type 1, the number of selected values counted under that serial number, and 0 for any
other type. -/
theorem accumulatedCount_foldl_sheets (maps : StatMaps) (sheets : List dao.AnswerSheet)
    (oc : List (Int × List (Int × Int))) (qid sn : Int) :
    accumulatedCount
        (sheets.foldl (fun oc sheet => sheet.Answers.foldl (countAnswer maps) oc) oc) qid sn =
      accumulatedCount oc qid sn +
        if (GoMap.getD maps.questionMap qid model.Question.zero).QuestionType = 1 then
          (((selectedValues qid sheets).countP
              (fun v => decide (voteTarget maps qid v = sn)) : Nat) : Int)
        else 0 := by
  induction sheets generalizing oc with
  | nil => simp [selectedValues]
  | cons s rest ih =>
    rw [List.foldl_cons, ih, accumulatedCount_foldl_countAnswer]
    by_cases ht : (GoMap.getD maps.questionMap qid model.Question.zero).QuestionType = 1
    · simp [ht, selectedValues, List.countP_append]
      omega
    · simp [ht]

theorem accumulatedCount_countSheets (maps : StatMaps) (sheets : List dao.AnswerSheet)
    (qid sn : Int) :
    accumulatedCount (countSheets maps sheets) qid sn =
      if (GoMap.getD maps.questionMap qid model.Question.zero).QuestionType = 1 then
        (((selectedValues qid sheets).countP
            (fun v => decide (voteTarget maps qid v = sn)) : Nat) : Int)
      else 0 := by
  unfold countSheets
  rw [accumulatedCount_foldl_sheets]
  simp [accumulatedCount, GoMap.getD, GoMap.lookup]

/-- What `optionAnswerMap` binds a content to is an option with that content. -/
theorem contentIndex_some (options : List model.Option) (v : String) (o : model.Option)
    (h : GoMap.lookup (contentIndex options) v = some o) : o ∈ options ∧ o.Content = v := by
  unfold contentIndex at h
  rcases GoMap.lookup_foldl_set_some (fun o : model.Option => o.Content) (fun o => o)
    options [] v o h with ⟨x, hx, hk, hv⟩ | h2
  · subst hv
    exact ⟨hx, hk⟩
  · simp [GoMap.lookup] at h2

theorem contentIndex_none (options : List model.Option) (v : String)
    (h : GoMap.lookup (contentIndex options) v = none) : ∀ o ∈ options, o.Content ≠ v := by
  unfold contentIndex at h
  exact (GoMap.lookup_foldl_set_none (fun o : model.Option => o.Content) (fun o => o)
    options [] v h).1

/-- The serial number a value is counted under, for a question that is the only one with its
ID: that of an option with this content, or 0 when no option has this content. -/
theorem voteTarget_cases (questions : List model.Question)
    (getOptions : Int → List model.Option) (q : model.Question) (hq : q ∈ questions)
    (hid : ∀ q2 ∈ questions, q2.ID = q.ID → q2 = q) (v : String) :
    (∃ o ∈ getOptions q.ID, o.Content = v ∧
      voteTarget (buildMaps questions getOptions) q.ID v = o.SerialNum) ∨
    ((∀ o ∈ getOptions q.ID, o.Content ≠ v) ∧
      voteTarget (buildMaps questions getOptions) q.ID v = 0) := by
  obtain ⟨_, _, h3, _⟩ := buildMaps_lookup questions getOptions q hq hid
  cases h : GoMap.lookup (contentIndex (getOptions q.ID)) v with
  | none =>
    refine Or.inr ⟨contentIndex_none _ _ h, ?_⟩
    simp [voteTarget, h3, h]
  | some o =>
    obtain ⟨h1, h2⟩ := contentIndex_some _ _ _ h
    refine Or.inl ⟨o, h1, h2, ?_⟩
    simp [voteTarget, h3, h]

/-- C4, as stated, fails: the accumulator is keyed by serial number. Two options with distinct
contents "red" and "blue" sharing serial number 1 are counted together (the answer "red┋blue"
gives the count 2 to both, while one value equals "red"); an option "red" with the reserved
serial number 0 receives the unmatched value "purple" (count 1, while no value equals "red"). -/
theorem counting_rule_counterexample :
    (([⟨1, 1, "red"⟩, ⟨1, 1, "blue"⟩] : List model.Option).map (fun o => o.Content)).Nodup ∧
    accumulatedCount
        (countSheets
          (buildMaps [⟨1, 9, 1, "colour", 1, false⟩]
            (fun _ => [⟨1, 1, "red"⟩, ⟨1, 1, "blue"⟩]))
          [⟨9, "t", true, [⟨1, 1, "colour", "red┋blue"⟩]⟩]) 1 1 = 2 ∧
    (selectedValues 1 [⟨9, "t", true, [⟨1, 1, "colour", "red┋blue"⟩]⟩]).countP
        (fun v => decide (v = "red")) = 1 ∧
    accumulatedCount
        (countSheets
          (buildMaps [⟨1, 9, 1, "colour", 1, false⟩] (fun _ => [⟨1, 0, "red"⟩]))
          [⟨9, "t", true, [⟨1, 1, "colour", "purple"⟩]⟩]) 1 0 = 1 ∧
    (selectedValues 1 [⟨9, "t", true, [⟨1, 1, "colour", "purple"⟩]⟩]).countP
        (fun v => decide (v = "red")) = 0 := by
  refine ⟨by decide, by decide, by decide, by decide, by decide⟩

/-- C4, amended: for a question of type 1 that is the only one with its ID and whose options
have pairwise distinct contents and pairwise distinct non-zero serial numbers, the accumulated
count of each option is the number of selected values (contents of the answers to the question
over all sheets, split on the separator) equal to the option's content, and the accumulated
count of serial number 0 is the number of selected values equal to no option's content,
whatever the question's other-option flag is. -/
theorem counting_rule (questions : List model.Question) (getOptions : Int → List model.Option)
    (sheets : List dao.AnswerSheet) (q : model.Question) (hq : q ∈ questions)
    (hid : ∀ q2 ∈ questions, q2.ID = q.ID → q2 = q) (htype : q.QuestionType = 1)
    (hcontent : ((getOptions q.ID).map (fun o => o.Content)).Nodup)
    (hserial : ((getOptions q.ID).map (fun o => o.SerialNum)).Nodup)
    (hzero : ∀ o ∈ getOptions q.ID, o.SerialNum ≠ 0) :
    (∀ o ∈ getOptions q.ID,
      accumulatedCount (countSheets (buildMaps questions getOptions) sheets) q.ID o.SerialNum =
        ((selectedValues q.ID sheets).countP (fun v => decide (v = o.Content)) : Nat)) ∧
    accumulatedCount (countSheets (buildMaps questions getOptions) sheets) q.ID 0 =
      ((selectedValues q.ID sheets).countP
        (fun v => decide (∀ o ∈ getOptions q.ID, o.Content ≠ v)) : Nat) := by
  have hmap := (buildMaps_lookup questions getOptions q hq hid).1
  have ht : (GoMap.getD (buildMaps questions getOptions).questionMap q.ID
      model.Question.zero).QuestionType = 1 := by
    unfold GoMap.getD
    rw [hmap]
    exact htype
  refine ⟨?_, ?_⟩
  · intro o ho
    rw [accumulatedCount_countSheets, if_pos ht]
    congr 1
    apply List.countP_congr
    intro v _
    simp only [decide_eq_true_eq]
    rcases voteTarget_cases questions getOptions q hq hid v with ⟨o2, ho2, hc, hv⟩ | ⟨hn, hv⟩
    · rw [hv]
      constructor
      · intro hs
        have : o2 = o := List.inj_on_of_nodup_map hserial ho2 ho hs
        rw [← hc, this]
      · intro hvc
        have : o2 = o := List.inj_on_of_nodup_map hcontent ho2 ho (hc.trans hvc)
        rw [this]
    · rw [hv]
      constructor
      · intro hs
        exact absurd hs.symm (hzero o ho)
      · intro hvc
        exact absurd hvc.symm (hn o ho)
  · rw [accumulatedCount_countSheets, if_pos ht]
    congr 1
    apply List.countP_congr
    intro v _
    simp only [decide_eq_true_eq]
    rcases voteTarget_cases questions getOptions q hq hid v with ⟨o2, ho2, hc, hv⟩ | ⟨hn, hv⟩
    · rw [hv]
      constructor
      · intro hs
        exact absurd hs (hzero o2 ho2)
      · intro hall
        exact absurd hc (hall o2 ho2)
    · rw [hv]
      exact ⟨fun _ => hn, fun _ => rfl⟩

/-- C4, amended, at the examples of the specification: with options red, blue, green (serial
numbers 1, 2, 3) and the other option not allowed, the answers "red┋blue" and "purple" give
red 1, blue 1, green 0 and the "other" bucket 1. -/
theorem counting_rule_witness :
    accumulatedCount
        (countSheets
          (buildMaps [⟨1, 9, 1, "colour", 1, false⟩]
            (fun _ => [⟨1, 1, "red"⟩, ⟨1, 2, "blue"⟩, ⟨1, 3, "green"⟩]))
          [⟨9, "t1", true, [⟨1, 1, "colour", "red┋blue"⟩]⟩,
           ⟨9, "t2", true, [⟨1, 1, "colour", "purple"⟩]⟩]) 1 1 = 1 ∧
    accumulatedCount
        (countSheets
          (buildMaps [⟨1, 9, 1, "colour", 1, false⟩]
            (fun _ => [⟨1, 1, "red"⟩, ⟨1, 2, "blue"⟩, ⟨1, 3, "green"⟩]))
          [⟨9, "t1", true, [⟨1, 1, "colour", "red┋blue"⟩]⟩,
           ⟨9, "t2", true, [⟨1, 1, "colour", "purple"⟩]⟩]) 1 3 = 0 ∧
    accumulatedCount
        (countSheets
          (buildMaps [⟨1, 9, 1, "colour", 1, false⟩]
            (fun _ => [⟨1, 1, "red"⟩, ⟨1, 2, "blue"⟩, ⟨1, 3, "green"⟩]))
          [⟨9, "t1", true, [⟨1, 1, "colour", "red┋blue"⟩]⟩,
           ⟨9, "t2", true, [⟨1, 1, "colour", "purple"⟩]⟩]) 1 0 = 1 :=
  have h := counting_rule [⟨1, 9, 1, "colour", 1, false⟩]
    (fun _ => [⟨1, 1, "red"⟩, ⟨1, 2, "blue"⟩, ⟨1, 3, "green"⟩])
    [⟨9, "t1", true, [⟨1, 1, "colour", "red┋blue"⟩]⟩,
     ⟨9, "t2", true, [⟨1, 1, "colour", "purple"⟩]⟩]
    ⟨1, 9, 1, "colour", 1, false⟩ (by decide) (by decide) rfl (by decide) (by decide)
    (by decide)
  ⟨(h.1 ⟨1, 1, "red"⟩ (by decide)).trans (by decide),
   (h.1 ⟨1, 3, "green"⟩ (by decide)).trans (by decide),
   h.2.trans (by decide)⟩

/-- C5 on a sheet holding content that matches no option. The question (type 1) has the options
red and blue with serial numbers 1 and 2 and the single answer is "purple". With the other
option allowed the emitted list has four entries and serial number 0 is emitted twice, once as
"其他" (other) and once more, with empty content, by the loop over the sorted serial numbers;
with the other option not allowed the list still starts with an entry of serial number 0 and
has three entries. -/
theorem assembly_other_bucket_unmatched :
    GetSurveyStatistics [⟨1, 9, 1, "colour", 1, true⟩]
        (fun _ => [⟨1, 1, "red"⟩, ⟨1, 2, "blue"⟩])
        [⟨9, "t", true, [⟨1, 1, "colour", "purple"⟩]⟩] =
      [⟨1, "colour", 1,
        [⟨0, "其他", 1, 1⟩, ⟨0, "", 1, 1⟩, ⟨1, "red", 0, 3⟩, ⟨2, "blue", 0, 3⟩]⟩] ∧
    GetSurveyStatistics [⟨1, 9, 1, "colour", 1, false⟩]
        (fun _ => [⟨1, 1, "red"⟩, ⟨1, 2, "blue"⟩])
        [⟨9, "t", true, [⟨1, 1, "colour", "purple"⟩]⟩] =
      [⟨1, "colour", 1, [⟨0, "", 1, 1⟩, ⟨1, "red", 0, 2⟩, ⟨2, "blue", 0, 2⟩]⟩] := by
  refine ⟨by decide, by decide⟩

/-! ### Questions that are not counted -/

theorem lookup_foldl_countValue_ne (maps : StatMaps) (key : Int) (vs : List String)
    (oc : List (Int × List (Int × Int))) (k : Int) (hk : key ≠ k) :
    GoMap.lookup (vs.foldl (countValue maps key) oc) k = GoMap.lookup oc k := by
  induction vs generalizing oc with
  | nil => rfl
  | cons v rest ih =>
    rw [List.foldl_cons, ih, countValue_eq, lookup_incrCount, if_neg hk]

/-- The effect of one answer on the counts bound to the ID of a question that is not of type 1
and is the only one with its non-zero ID: a first answer to it binds the zero counts of its
options, anything else leaves the binding alone. -/
theorem lookup_countAnswer_uncounted (questions : List model.Question)
    (getOptions : Int → List model.Option) (q : model.Question) (hq : q ∈ questions)
    (hid : ∀ q2 ∈ questions, q2.ID = q.ID → q2 = q) (hid0 : q.ID ≠ 0)
    (htype : q.QuestionType ≠ 1) (oc : List (Int × List (Int × Int))) (a : dao.Answer) :
    GoMap.lookup (countAnswer (buildMaps questions getOptions) oc a) q.ID =
      if a.QuestionID = q.ID ∧ GoMap.lookup oc q.ID = none then
        some (zeroCounts (getOptions q.ID))
      else GoMap.lookup oc q.ID := by
  obtain ⟨h1, h2, _, _⟩ := buildMaps_lookup questions getOptions q hq hid
  unfold countAnswer
  simp only
  by_cases ha : a.QuestionID = q.ID
  · have hqq : GoMap.getD (buildMaps questions getOptions).questionMap a.QuestionID
        model.Question.zero = q := by
      rw [ha]
      unfold GoMap.getD
      rw [h1]
      rfl
    have hoo : GoMap.getD (buildMaps questions getOptions).optionsMap a.QuestionID [] =
        getOptions q.ID := by
      rw [ha]
      unfold GoMap.getD
      rw [h2]
      rfl
    rw [hqq, hoo, if_neg htype, lookup_initCounts]
    simp [ha]
  · have hne : (GoMap.getD (buildMaps questions getOptions).questionMap a.QuestionID
        model.Question.zero).ID ≠ q.ID := by
      rcases questionMap_getD questions getOptions a.QuestionID with h | h
      · rw [h]
        exact fun e => hid0 e.symm
      · rw [h]
        exact ha
    have hinit : GoMap.lookup
        (initCounts oc
          (GoMap.getD (buildMaps questions getOptions).questionMap a.QuestionID
            model.Question.zero)
          (GoMap.getD (buildMaps questions getOptions).optionsMap a.QuestionID [])) q.ID =
        GoMap.lookup oc q.ID := by
      rw [lookup_initCounts, if_neg (fun h => hne h.1)]
    split
    · rw [lookup_foldl_countValue_ne _ _ _ _ _ ha, hinit]
      simp [ha]
    · rw [hinit]
      simp [ha]

theorem lookup_foldl_countAnswer_uncounted (questions : List model.Question)
    (getOptions : Int → List model.Option) (q : model.Question) (hq : q ∈ questions)
    (hid : ∀ q2 ∈ questions, q2.ID = q.ID → q2 = q) (hid0 : q.ID ≠ 0)
    (htype : q.QuestionType ≠ 1) (answers : List dao.Answer)
    (oc : List (Int × List (Int × Int)))
    (hinv : GoMap.lookup oc q.ID = none ∨
      GoMap.lookup oc q.ID = some (zeroCounts (getOptions q.ID))) :
    (GoMap.lookup (answers.foldl (countAnswer (buildMaps questions getOptions)) oc) q.ID = none ∨
      GoMap.lookup (answers.foldl (countAnswer (buildMaps questions getOptions)) oc) q.ID =
        some (zeroCounts (getOptions q.ID))) ∧
    ((GoMap.lookup oc q.ID = some (zeroCounts (getOptions q.ID)) ∨
        ∃ a ∈ answers, a.QuestionID = q.ID) →
      GoMap.lookup (answers.foldl (countAnswer (buildMaps questions getOptions)) oc) q.ID =
        some (zeroCounts (getOptions q.ID))) := by
  induction answers generalizing oc with
  | nil =>
    refine ⟨hinv, ?_⟩
    rintro (h | ⟨a, ha, _⟩)
    · exact h
    · exact absurd ha (List.not_mem_nil _)
  | cons a rest ih =>
    rw [List.foldl_cons]
    have hstep := lookup_countAnswer_uncounted questions getOptions q hq hid hid0 htype oc a
    have hinv2 : GoMap.lookup (countAnswer (buildMaps questions getOptions) oc a) q.ID = none ∨
        GoMap.lookup (countAnswer (buildMaps questions getOptions) oc a) q.ID =
          some (zeroCounts (getOptions q.ID)) := by
      rw [hstep]
      split
      · exact Or.inr rfl
      · exact hinv
    obtain ⟨i1, i2⟩ := ih _ hinv2
    refine ⟨i1, ?_⟩
    intro h
    apply i2
    rcases h with h | ⟨b, hb, hbq⟩
    · left
      rw [hstep]
      split
      · rfl
      · exact h
    · rcases List.mem_cons.1 hb with e | e
      · subst e
        left
        rw [hstep]
        rcases hinv with hn | hs
        · rw [if_pos ⟨hbq, hn⟩]
        · rw [if_neg (fun hh => by rw [hs] at hh; exact absurd hh.2 (by simp)), hs]
      · exact Or.inr ⟨b, e, hbq⟩

/-- After the loop over all sheets, an answered question that is not of type 1 is bound to the
zero counts of its options. -/
theorem lookup_countSheets_uncounted (questions : List model.Question)
    (getOptions : Int → List model.Option) (q : model.Question) (hq : q ∈ questions)
    (hid : ∀ q2 ∈ questions, q2.ID = q.ID → q2 = q) (hid0 : q.ID ≠ 0)
    (htype : q.QuestionType ≠ 1) (sheets : List dao.AnswerSheet)
    (hans : ∃ s ∈ sheets, ∃ a ∈ s.Answers, a.QuestionID = q.ID) :
    GoMap.lookup (countSheets (buildMaps questions getOptions) sheets) q.ID =
      some (zeroCounts (getOptions q.ID)) := by
  have key : ∀ (ss : List dao.AnswerSheet) (oc : List (Int × List (Int × Int))),
      (GoMap.lookup oc q.ID = none ∨
        GoMap.lookup oc q.ID = some (zeroCounts (getOptions q.ID))) →
      (GoMap.lookup (ss.foldl (fun oc sheet =>
          sheet.Answers.foldl (countAnswer (buildMaps questions getOptions)) oc) oc) q.ID
            = none ∨
        GoMap.lookup (ss.foldl (fun oc sheet =>
          sheet.Answers.foldl (countAnswer (buildMaps questions getOptions)) oc) oc) q.ID =
            some (zeroCounts (getOptions q.ID))) ∧
      ((GoMap.lookup oc q.ID = some (zeroCounts (getOptions q.ID)) ∨
          ∃ s ∈ ss, ∃ a ∈ s.Answers, a.QuestionID = q.ID) →
        GoMap.lookup (ss.foldl (fun oc sheet =>
          sheet.Answers.foldl (countAnswer (buildMaps questions getOptions)) oc) oc) q.ID =
            some (zeroCounts (getOptions q.ID))) := by
    intro ss
    induction ss with
    | nil =>
      intro oc hinv
      refine ⟨hinv, ?_⟩
      rintro (h | ⟨s, hs, _⟩)
      · exact h
      · exact absurd hs (List.not_mem_nil _)
    | cons s rest ih =>
      intro oc hinv
      rw [List.foldl_cons]
      obtain ⟨j1, j2⟩ := lookup_foldl_countAnswer_uncounted questions getOptions q hq hid hid0
        htype s.Answers oc hinv
      obtain ⟨i1, i2⟩ := ih _ j1
      refine ⟨i1, ?_⟩
      intro h
      apply i2
      rcases h with h | ⟨s2, hs2, a, ha, haq⟩
      · exact Or.inl (j2 (Or.inl h))
      · rcases List.mem_cons.1 hs2 with e | e
        · subst e
          exact Or.inl (j2 (Or.inr ⟨a, ha, haq⟩))
        · exact Or.inr ⟨s2, e, a, ha, haq⟩
  unfold countSheets
  exact (key sheets [] (Or.inl rfl)).2 (Or.inr hans)

theorem assembleOptions_eq (maps : StatMaps) (qid : Int) (options : List (Int × Int)) :
    assembleOptions maps qid options =
      (if (GoMap.getD maps.questionMap qid model.Question.zero).OtherOption then
          [(⟨0, "其他", GoMap.getD options 0 0, 0⟩ : getOptionCount)]
        else []) ++
      (sortInts (GoMap.keys options)).map (fun sn =>
        (⟨(GoMap.getD (GoMap.getD maps.optionSerialNumMap qid []) sn model.Option.zero).SerialNum,
          (GoMap.getD (GoMap.getD maps.optionSerialNumMap qid []) sn model.Option.zero).Content,
          GoMap.getD options sn 0, 0⟩ : getOptionCount)) := by
  unfold assembleOptions
  simp only
  rw [foldl_append_singleton]

/-- When every count is 0 the rank step writes rank 1 everywhere. -/
theorem assignRanks_all_zero (l : List getOptionCount) (h : ∀ e ∈ l, e.Count = 0) :
    assignRanks l = l.map (fun o => { o with Rank := 1 }) := by
  unfold assignRanks
  apply List.map_congr_left
  intro o ho
  obtain ⟨p, hp, _, hval⟩ := assignRanks_rankMap l o ho
  have hz : greaterCount l p.Count = 0 := by
    unfold greaterCount
    rw [List.countP_eq_zero]
    intro e he
    rw [h e he, h p hp]
    simp
  simp only [hval, hz]
  rfl

theorem serialIndex_lookup (options : List model.Option) (o : model.Option)
    (ho : o ∈ options) :
    ∃ o2, GoMap.lookup (serialIndex options) o.SerialNum = some o2 ∧ o2 ∈ options ∧
      o2.SerialNum = o.SerialNum := by
  cases h : GoMap.lookup (serialIndex options) o.SerialNum with
  | none =>
    unfold serialIndex at h
    exact absurd rfl ((GoMap.lookup_foldl_set_none (fun x : model.Option => x.SerialNum)
      (fun x => x) options [] o.SerialNum h).1 o ho)
  | some o2 =>
    unfold serialIndex at h
    rcases GoMap.lookup_foldl_set_some (fun x : model.Option => x.SerialNum) (fun x => x)
      options [] o.SerialNum o2 h with ⟨x, hx, hk, hv⟩ | h2
    · subst hv
      exact ⟨x, rfl, hx, hk⟩
    · simp [GoMap.lookup] at h2

/-- C10: for a question that is not of type 1, is the only one with its non-zero ID and is
answered in at least one sheet, the statistics contain an entry with the question's serial
number, subject and type in which every configured option appears by its serial number (and,
the serial numbers being pairwise distinct, with its content), the "other" entry appears when
the other option is allowed, and every emitted entry has count 0 and rank 1, whatever the
answers' contents are. -/
theorem uncounted_question_statistics (questions : List model.Question)
    (getOptions : Int → List model.Option) (sheets : List dao.AnswerSheet)
    (q : model.Question) (hq : q ∈ questions)
    (hid : ∀ q2 ∈ questions, q2.ID = q.ID → q2 = q) (hid0 : q.ID ≠ 0)
    (htype : q.QuestionType ≠ 1)
    (hans : ∃ s ∈ sheets, ∃ a ∈ s.Answers, a.QuestionID = q.ID) :
    ∃ r ∈ GetSurveyStatistics questions getOptions sheets,
      r.SerialNum = q.SerialNum ∧ r.Question = q.Subject ∧ r.QuestionType = q.QuestionType ∧
      (∀ o ∈ getOptions q.ID, ∃ e ∈ r.Options,
        e.SerialNum = o.SerialNum ∧ e.Count = 0 ∧ e.Rank = 1) ∧
      (((getOptions q.ID).map (fun o => o.SerialNum)).Nodup →
        ∀ o ∈ getOptions q.ID, (⟨o.SerialNum, o.Content, 0, 1⟩ : getOptionCount) ∈ r.Options) ∧
      (q.OtherOption = true → (⟨0, "其他", 0, 1⟩ : getOptionCount) ∈ r.Options) ∧
      (∀ e ∈ r.Options, e.Count = 0 ∧ e.Rank = 1) := by
  obtain ⟨h1, _, _, h4⟩ := buildMaps_lookup questions getOptions q hq hid
  have hlook := lookup_countSheets_uncounted questions getOptions q hq hid hid0 htype sheets hans
  have hqq : GoMap.getD (buildMaps questions getOptions).questionMap q.ID
      model.Question.zero = q := by
    unfold GoMap.getD
    rw [h1]
    rfl
  have hss : GoMap.getD (buildMaps questions getOptions).optionSerialNumMap q.ID [] =
      serialIndex (getOptions q.ID) := by
    unfold GoMap.getD
    rw [h4]
    rfl
  have hne : sheets.length ≠ 0 := by
    obtain ⟨s, hs, _⟩ := hans
    intro h0
    rw [List.length_eq_zero] at h0
    rw [h0] at hs
    exact absurd hs (List.not_mem_nil _)
  have hzero : ∀ e ∈ assembleOptions (buildMaps questions getOptions) q.ID
      (zeroCounts (getOptions q.ID)), e.Count = 0 := by
    intro e he
    rw [assembleOptions_eq, List.mem_append] at he
    rcases he with he | he
    · by_cases ho : (GoMap.getD (buildMaps questions getOptions).questionMap q.ID
          model.Question.zero).OtherOption = true
      · rw [if_pos ho, List.mem_singleton] at he
        rw [he]
        exact zeroCounts_getD _ _
      · rw [if_neg ho] at he
        exact absurd he (List.not_mem_nil _)
    · obtain ⟨sn, _, rfl⟩ := List.mem_map.1 he
      exact zeroCounts_getD _ _
  have hopt : ∀ o ∈ getOptions q.ID, ∃ o2 ∈ getOptions q.ID, o2.SerialNum = o.SerialNum ∧
      (⟨o2.SerialNum, o2.Content, 0, 1⟩ : getOptionCount) ∈
        assignRanks (assembleOptions (buildMaps questions getOptions) q.ID
          (zeroCounts (getOptions q.ID))) := by
    intro o ho
    obtain ⟨o2, hl, ho2, hs2⟩ := serialIndex_lookup (getOptions q.ID) o ho
    refine ⟨o2, ho2, hs2, ?_⟩
    rw [assignRanks_all_zero _ hzero, List.mem_map]
    refine ⟨⟨o2.SerialNum, o2.Content, 0, 0⟩, ?_, rfl⟩
    rw [assembleOptions_eq, List.mem_append]
    right
    rw [List.mem_map]
    refine ⟨o.SerialNum, ?_, ?_⟩
    · unfold sortInts
      rw [(List.perm_insertionSort _ _).mem_iff]
      exact (zeroCounts_keys _ _).2 ⟨o, ho, rfl⟩
    · rw [hss, zeroCounts_getD]
      unfold GoMap.getD
      rw [hl]
      rfl
  refine ⟨questionStatistics (buildMaps questions getOptions) q.ID
    (zeroCounts (getOptions q.ID)), ?_, ?_, ?_, ?_, ?_, ?_, ?_, ?_⟩
  · unfold GetSurveyStatistics
    rw [if_neg hne]
    unfold countedStatistics
    simp only
    rw [foldl_append_singleton, List.nil_append, List.mem_map]
    exact ⟨(q.ID, zeroCounts (getOptions q.ID)), GoMap.lookup_some_mem hlook, rfl⟩
  · unfold questionStatistics
    simp only [hqq]
  · unfold questionStatistics
    simp only [hqq]
  · unfold questionStatistics
    simp only [hqq]
  · intro o ho
    obtain ⟨o2, _, hs2, hmem⟩ := hopt o ho
    exact ⟨_, hmem, hs2, rfl, rfl⟩
  · intro hnodup o ho
    obtain ⟨o2, ho2, hs2, hmem⟩ := hopt o ho
    have : o2 = o := List.inj_on_of_nodup_map hnodup ho2 ho hs2
    rw [this] at hmem
    exact hmem
  · intro hother
    unfold questionStatistics
    simp only
    rw [assignRanks_all_zero _ hzero, List.mem_map]
    refine ⟨⟨0, "其他", 0, 0⟩, ?_, rfl⟩
    rw [assembleOptions_eq, List.mem_append]
    left
    rw [hqq, if_pos hother, zeroCounts_getD]
    exact List.mem_singleton_self _
  · intro e he
    unfold questionStatistics at he
    simp only at he
    rw [assignRanks_all_zero _ hzero, List.mem_map] at he
    obtain ⟨e0, he0, rfl⟩ := he
    exact ⟨hzero e0 he0, rfl⟩

/-- C10 at a multiple-choice question (type 2) with the other option allowed and one answer:
the entry lists the other bucket and both options with count 0 and rank 1. -/
theorem uncounted_question_statistics_witness :
    ∃ r ∈ GetSurveyStatistics [⟨3, 9, 1, "colours", 2, true⟩]
        (fun _ => [⟨3, 1, "red"⟩, ⟨3, 2, "blue"⟩])
        [⟨9, "t", true, [⟨3, 1, "colours", "red┋purple"⟩]⟩],
      r.SerialNum = 1 ∧ r.Question = "colours" ∧ r.QuestionType = 2 ∧
      (∀ o ∈ ([⟨3, 1, "red"⟩, ⟨3, 2, "blue"⟩] : List model.Option), ∃ e ∈ r.Options,
        e.SerialNum = o.SerialNum ∧ e.Count = 0 ∧ e.Rank = 1) ∧
      ((([⟨3, 1, "red"⟩, ⟨3, 2, "blue"⟩] : List model.Option).map
          (fun o => o.SerialNum)).Nodup →
        ∀ o ∈ ([⟨3, 1, "red"⟩, ⟨3, 2, "blue"⟩] : List model.Option),
          (⟨o.SerialNum, o.Content, 0, 1⟩ : getOptionCount) ∈ r.Options) ∧
      (true = true → (⟨0, "其他", 0, 1⟩ : getOptionCount) ∈ r.Options) ∧
      (∀ e ∈ r.Options, e.Count = 0 ∧ e.Rank = 1) :=
  uncounted_question_statistics [⟨3, 9, 1, "colours", 2, true⟩]
    (fun _ => [⟨3, 1, "red"⟩, ⟨3, 2, "blue"⟩])
    [⟨9, "t", true, [⟨3, 1, "colours", "red┋purple"⟩]⟩]
    ⟨3, 9, 1, "colours", 2, true⟩ (by decide) (by decide) (by decide) (by decide)
    ⟨_, List.mem_singleton_self _, _, List.mem_singleton_self _, rfl⟩

/-! ### Vote conservation -/

namespace GoMap

theorem keys_set {K V : Type} [DecidableEq K] (m : List (K × V)) (k : K) (v : V) :
    keys (set m k v) = if k ∈ keys m then keys m else keys m ++ [k] := by
  induction m with
  | nil => simp [set, keys]
  | cons p rest ih =>
    obtain ⟨k1, v1⟩ := p
    unfold keys at ih ⊢
    unfold set
    by_cases h1 : k1 = k
    · subst h1
      simp
    · have h2 : ¬ k = k1 := fun e => h1 e.symm
      rw [if_neg h1, List.map_cons, ih]
      by_cases hm : k ∈ List.map Prod.fst rest
      · simp [hm]
      · simp [hm, h2]

theorem nodup_keys_set {K V : Type} [DecidableEq K] (m : List (K × V)) (k : K) (v : V)
    (h : (keys m).Nodup) : (keys (set m k v)).Nodup := by
  rw [keys_set]
  by_cases hm : k ∈ keys m
  · rw [if_pos hm]
    exact h
  · rw [if_neg hm]
    exact List.Nodup.append h (List.nodup_singleton k) (by simpa using hm)

theorem nodup_keys_foldl_set {K V α : Type} [DecidableEq K] (kf : α → K) (vf : α → V)
    (l : List α) (m0 : List (K × V)) (h : (keys m0).Nodup) :
    (keys (l.foldl (fun m x => set m (kf x) (vf x)) m0)).Nodup := by
  induction l generalizing m0 with
  | nil => exact h
  | cons x rest ih =>
    rw [List.foldl_cons]
    exact ih _ (nodup_keys_set m0 _ _ h)

/-- In a map with distinct keys the stored values are the values read at its keys. -/
theorem map_getD_keys {K V : Type} [DecidableEq K] (m : List (K × V)) (d : V)
    (h : (keys m).Nodup) : (keys m).map (fun k => getD m k d) = m.map Prod.snd := by
  induction m with
  | nil => rfl
  | cons p rest ih =>
    obtain ⟨k1, v1⟩ := p
    unfold keys at h ih ⊢
    rw [List.map_cons, List.nodup_cons] at h
    rw [List.map_cons, List.map_cons, List.map_cons, ← ih h.2]
    congr 1
    · simp [getD, lookup]
    · apply List.map_congr_left
      intro k hk
      have hne : ¬ k1 = k := fun e => h.1 (e ▸ hk)
      simp [getD, lookup, hne]

end GoMap

theorem countsSum_set (m : List (Int × Int)) (k v : Int) :
    countsSum (GoMap.set m k v) = countsSum m - GoMap.getD m k 0 + v := by
  induction m with
  | nil => simp [GoMap.set, countsSum, GoMap.getD, GoMap.lookup]
  | cons p rest ih =>
    obtain ⟨k1, v1⟩ := p
    unfold countsSum at ih ⊢
    unfold GoMap.set
    by_cases h1 : k1 = k
    · simp [h1, GoMap.getD, GoMap.lookup]
      omega
    · rw [if_neg h1, List.map_cons, List.sum_cons, ih]
      simp only [List.map_cons, List.sum_cons, GoMap.getD, GoMap.lookup, if_neg h1]
      omega

theorem countsSum_zeroCounts (options : List model.Option) :
    countsSum (zeroCounts options) = 0 := by
  have key : ∀ (l : List model.Option) (m : List (Int × Int)),
      countsSum m = 0 → (∀ k, GoMap.getD m k 0 = 0) →
      countsSum (l.foldl (fun inner option => GoMap.set inner option.SerialNum 0) m) = 0 := by
    intro l
    induction l with
    | nil => exact fun m h _ => h
    | cons o rest ih =>
      intro m h1 h2
      rw [List.foldl_cons]
      apply ih
      · rw [countsSum_set, h1, h2]
        rfl
      · intro k
        rw [GoMap.getD_set]
        split
        · rfl
        · exact h2 k
  exact key options [] rfl (fun _ => rfl)

theorem getD_incrCount (m : List (Int × List (Int × Int))) (key k qid : Int) :
    GoMap.getD (incrCount m key k) qid [] =
      if key = qid then
        GoMap.set (GoMap.getD m key []) k (GoMap.getD (GoMap.getD m key []) k 0 + 1)
      else GoMap.getD m qid [] := by
  by_cases hk : key = qid <;> simp [hk, GoMap.getD, lookup_incrCount]

theorem getD_initCounts (oc : List (Int × List (Int × Int))) (question : model.Question)
    (options : List model.Option) (qid : Int) :
    GoMap.getD (initCounts oc question options) qid [] =
      if question.ID = qid ∧ GoMap.lookup oc question.ID = none then zeroCounts options
      else GoMap.getD oc qid [] := by
  by_cases hk : question.ID = qid ∧ GoMap.lookup oc question.ID = none
  · rw [if_pos hk]
    unfold GoMap.getD
    rw [lookup_initCounts, if_pos hk]
    rfl
  · rw [if_neg hk]
    unfold GoMap.getD
    rw [lookup_initCounts, if_neg hk]

theorem nodup_keys_getD (oc : List (Int × List (Int × Int))) (hwf : countsWellFormed oc)
    (k : Int) : (GoMap.keys (GoMap.getD oc k [])).Nodup := by
  unfold GoMap.getD
  cases h : GoMap.lookup oc k with
  | none => exact List.nodup_nil
  | some inner => exact hwf k inner h

theorem countsWellFormed_incrCount (oc : List (Int × List (Int × Int))) (key k : Int)
    (hwf : countsWellFormed oc) : countsWellFormed (incrCount oc key k) := by
  intro k2 inner h
  rw [lookup_incrCount] at h
  by_cases hk : key = k2
  · rw [if_pos hk] at h
    cases h
    exact GoMap.nodup_keys_set _ _ _ (nodup_keys_getD oc hwf key)
  · rw [if_neg hk] at h
    exact hwf k2 inner h

theorem countsWellFormed_initCounts (oc : List (Int × List (Int × Int)))
    (question : model.Question) (options : List model.Option) (hwf : countsWellFormed oc) :
    countsWellFormed (initCounts oc question options) := by
  intro k2 inner h
  rw [lookup_initCounts] at h
  by_cases hk : question.ID = k2 ∧ GoMap.lookup oc question.ID = none
  · rw [if_pos hk] at h
    cases h
    unfold zeroCounts
    exact GoMap.nodup_keys_foldl_set _ _ _ _ List.nodup_nil
  · rw [if_neg hk] at h
    exact hwf k2 inner h

theorem countsWellFormed_foldl_countValue (maps : StatMaps) (key : Int) (vs : List String)
    (oc : List (Int × List (Int × Int))) (hwf : countsWellFormed oc) :
    countsWellFormed (vs.foldl (countValue maps key) oc) := by
  induction vs generalizing oc with
  | nil => exact hwf
  | cons v rest ih =>
    rw [List.foldl_cons, countValue_eq]
    exact ih _ (countsWellFormed_incrCount oc key _ hwf)

theorem countsWellFormed_countAnswer (maps : StatMaps) (oc : List (Int × List (Int × Int)))
    (a : dao.Answer) (hwf : countsWellFormed oc) : countsWellFormed (countAnswer maps oc a) := by
  unfold countAnswer
  simp only
  split
  · exact countsWellFormed_foldl_countValue _ _ _ _ (countsWellFormed_initCounts _ _ _ hwf)
  · exact countsWellFormed_initCounts _ _ _ hwf

/-- The accumulator after the loop over all sheets binds each serial number once. -/
theorem countsWellFormed_countSheets (maps : StatMaps) (sheets : List dao.AnswerSheet) :
    countsWellFormed (countSheets maps sheets) := by
  have hanswers : ∀ (answers : List dao.Answer) (oc : List (Int × List (Int × Int))),
      countsWellFormed oc → countsWellFormed (answers.foldl (countAnswer maps) oc) := by
    intro answers
    induction answers with
    | nil => exact fun _ h => h
    | cons a rest ih =>
      intro oc h
      rw [List.foldl_cons]
      exact ih _ (countsWellFormed_countAnswer maps oc a h)
  have hsheets : ∀ (ss : List dao.AnswerSheet) (oc : List (Int × List (Int × Int))),
      countsWellFormed oc →
      countsWellFormed
        (ss.foldl (fun oc sheet => sheet.Answers.foldl (countAnswer maps) oc) oc) := by
    intro ss
    induction ss with
    | nil => exact fun _ h => h
    | cons s rest ih =>
      intro oc h
      rw [List.foldl_cons]
      exact ih _ (hanswers s.Answers oc h)
  unfold countSheets
  apply hsheets
  intro k inner h
  simp [GoMap.lookup] at h

/-- With every serial number bound once, the sum of the accumulated counts of a question is
the sum of the values its inner map holds. -/
theorem accumulatedTotal_eq_countsSum (oc : List (Int × List (Int × Int)))
    (hwf : countsWellFormed oc) (qid : Int) :
    accumulatedTotal oc qid = countsSum (GoMap.getD oc qid []) := by
  unfold accumulatedTotal countsSum
  have : (fun serialNum => accumulatedCount oc qid serialNum) =
      (fun serialNum => GoMap.getD (GoMap.getD oc qid []) serialNum 0) := rfl
  rw [this, GoMap.map_getD_keys _ _ (nodup_keys_getD oc hwf qid)]

theorem countsSum_incrCount (m : List (Int × List (Int × Int))) (key k qid : Int) :
    countsSum (GoMap.getD (incrCount m key k) qid []) =
      countsSum (GoMap.getD m qid []) + if key = qid then 1 else 0 := by
  rw [getD_incrCount]
  by_cases hk : key = qid
  · subst hk
    rw [if_pos rfl, if_pos rfl, countsSum_set]
    omega
  · rw [if_neg hk, if_neg hk]
    omega

theorem countsSum_initCounts (oc : List (Int × List (Int × Int))) (question : model.Question)
    (options : List model.Option) (qid : Int) :
    countsSum (GoMap.getD (initCounts oc question options) qid []) =
      countsSum (GoMap.getD oc qid []) := by
  rw [getD_initCounts]
  by_cases hk : question.ID = qid ∧ GoMap.lookup oc question.ID = none
  · rw [if_pos hk, countsSum_zeroCounts]
    obtain ⟨hq, hn⟩ := hk
    subst hq
    simp [GoMap.getD, hn, countsSum]
  · rw [if_neg hk]

theorem countsSum_foldl_countValue (maps : StatMaps) (key : Int) (vs : List String)
    (oc : List (Int × List (Int × Int))) (qid : Int) :
    countsSum (GoMap.getD (vs.foldl (countValue maps key) oc) qid []) =
      countsSum (GoMap.getD oc qid []) + if key = qid then (vs.length : Int) else 0 := by
  induction vs generalizing oc with
  | nil => simp
  | cons v rest ih =>
    rw [List.foldl_cons, ih, countValue_eq, countsSum_incrCount]
    by_cases hk : key = qid
    · simp [hk]
      omega
    · simp [hk]

theorem countsSum_countAnswer (maps : StatMaps) (oc : List (Int × List (Int × Int)))
    (a : dao.Answer) (qid : Int) :
    countsSum (GoMap.getD (countAnswer maps oc a) qid []) =
      countsSum (GoMap.getD oc qid []) +
        if a.QuestionID = qid ∧
            (GoMap.getD maps.questionMap a.QuestionID model.Question.zero).QuestionType = 1 then
          ((stringsSplit a.Content).length : Int)
        else 0 := by
  unfold countAnswer
  simp only
  by_cases ht :
      (GoMap.getD maps.questionMap a.QuestionID model.Question.zero).QuestionType = 1
  · rw [if_pos ht, countsSum_foldl_countValue, countsSum_initCounts]
    by_cases hk : a.QuestionID = qid
    · subst hk
      simp [ht]
    · simp [hk]
  · rw [if_neg ht, countsSum_initCounts]
    simp [ht]

theorem countsSum_foldl_countAnswer (maps : StatMaps) (answers : List dao.Answer)
    (oc : List (Int × List (Int × Int))) (qid : Int) :
    countsSum (GoMap.getD (answers.foldl (countAnswer maps) oc) qid []) =
      countsSum (GoMap.getD oc qid []) +
        if (GoMap.getD maps.questionMap qid model.Question.zero).QuestionType = 1 then
          ((((answers.filter (fun a => decide (a.QuestionID = qid))).flatMap
            (fun a => stringsSplit a.Content)).length : Nat) : Int)
        else 0 := by
  induction answers generalizing oc with
  | nil => simp
  | cons a rest ih =>
    rw [List.foldl_cons, ih, countsSum_countAnswer]
    by_cases hk : a.QuestionID = qid
    · subst hk
      by_cases ht :
          (GoMap.getD maps.questionMap a.QuestionID model.Question.zero).QuestionType = 1
      · simp [ht, List.filter_cons]
        omega
      · simp [ht]
    · simp [hk, List.filter_cons]

/-- The values held for a question add up to the number of selected values when the question
bound to that ID has type 1, and to 0 for any other type. -/
theorem countsSum_countSheets (maps : StatMaps) (sheets : List dao.AnswerSheet) (qid : Int) :
    countsSum (GoMap.getD (countSheets maps sheets) qid []) =
      if (GoMap.getD maps.questionMap qid model.Question.zero).QuestionType = 1 then
        ((selectedValues qid sheets).length : Int)
      else 0 := by
  have key : ∀ (ss : List dao.AnswerSheet) (oc : List (Int × List (Int × Int))),
      countsSum (GoMap.getD
          (ss.foldl (fun oc sheet => sheet.Answers.foldl (countAnswer maps) oc) oc) qid []) =
        countsSum (GoMap.getD oc qid []) +
          if (GoMap.getD maps.questionMap qid model.Question.zero).QuestionType = 1 then
            ((selectedValues qid ss).length : Int)
          else 0 := by
    intro ss
    induction ss with
    | nil =>
      intro oc
      simp [selectedValues]
    | cons s rest ih =>
      intro oc
      rw [List.foldl_cons, ih, countsSum_foldl_countAnswer]
      by_cases ht : (GoMap.getD maps.questionMap qid model.Question.zero).QuestionType = 1
      · simp [ht, selectedValues]
        omega
      · simp [ht]
  unfold countSheets
  rw [key]
  simp [GoMap.getD, GoMap.lookup, countsSum]

theorem sum_indicator (S : List Int) (hS : S.Nodup) (x : Int) (hx : x ∈ S) :
    (S.map (fun s => if x = s then (1 : Int) else 0)).sum = 1 := by
  induction S with
  | nil => exact absurd hx (List.not_mem_nil _)
  | cons s rest ih =>
    rw [List.nodup_cons] at hS
    rw [List.map_cons, List.sum_cons]
    by_cases hxs : x = s
    · subst hxs
      have hz : (rest.map (fun s => if x = s then (1 : Int) else 0)).sum = 0 := by
        have : ∀ s ∈ rest, (if x = s then (1 : Int) else 0) = 0 := by
          intro s hs
          have : ¬ x = s := fun e => hS.1 (e ▸ hs)
          rw [if_neg this]
        rw [List.map_congr_left this]
        simp
      rw [if_pos rfl, hz]
      rfl
    · have hxr : x ∈ rest := by
        rcases List.mem_cons.1 hx with e | e
        · exact absurd e hxs
        · exact e
      rw [if_neg hxs, ih hS.2 hxr]
      rfl

/-- When every value is counted under one of pairwise distinct serial numbers, the counts per
serial number add up to the number of values. -/
theorem sum_countP_eq_length (S : List Int) (hS : S.Nodup) (f : String → Int)
    (vs : List String) (hf : ∀ v ∈ vs, f v ∈ S) :
    (S.map (fun s => ((vs.countP (fun v => decide (f v = s)) : Nat) : Int))).sum =
      (vs.length : Int) := by
  induction vs with
  | nil => simp
  | cons v rest ih =>
    have hstep : (fun s => ((List.countP (fun v => decide (f v = s)) (v :: rest) : Nat) : Int)) =
        (fun s => ((List.countP (fun v => decide (f v = s)) rest : Nat) : Int) +
          (if f v = s then (1 : Int) else 0)) := by
      funext s
      rw [List.countP_cons]
      by_cases h : f v = s <;> simp [h]
    rw [hstep, List.sum_map_add, ih (fun w hw => hf w (List.mem_cons_of_mem _ hw)),
      sum_indicator S hS (f v) (hf v (List.mem_cons_self _ _))]
    simp

/-- The selected values of a list of sheets in which one sheet holds the answer `a` to the
question, next to those of the same sheets without that answer. -/
theorem selectedValues_insert (qid : Int) (before after : List dao.AnswerSheet)
    (s : dao.AnswerSheet) (pre post : List dao.Answer) (a : dao.Answer)
    (hs : s.Answers = pre ++ a :: post) (ha : a.QuestionID = qid) :
    ∃ l1 l2, selectedValues qid (before ++ s :: after) = l1 ++ stringsSplit a.Content ++ l2 ∧
      selectedValues qid (before ++ ⟨s.SurveyID, s.Time, s.Unique, pre ++ post⟩ :: after) =
        l1 ++ l2 := by
  refine ⟨selectedValues qid before ++
      (pre.filter (fun x => decide (x.QuestionID = qid))).flatMap
        (fun x => stringsSplit x.Content),
    (post.filter (fun x => decide (x.QuestionID = qid))).flatMap
        (fun x => stringsSplit x.Content) ++ selectedValues qid after, ?_, ?_⟩
  · unfold selectedValues
    rw [List.flatMap_append, List.flatMap_cons, hs, List.filter_append, List.filter_cons]
    simp [ha, List.flatMap_append]
  · unfold selectedValues
    rw [List.flatMap_append, List.flatMap_cons]
    simp [List.filter_append, List.flatMap_append]

/-- C11: vote conservation. For a question of type 1 that is the only one with its ID, the
accumulated counts of the question, added up over every serial number the accumulator holds for
it, equal the number of values obtained by splitting the content of every answer to the
question over all sheets; with pairwise distinct non-zero option serial numbers this sum is the
sum over the configured options plus the serial-number-0 bucket. An empty content splits into
one value: an answer with empty content adds exactly one to the sum, and one to the
serial-number-0 bucket when no option has empty content. -/
theorem vote_conservation (questions : List model.Question)
    (getOptions : Int → List model.Option) (sheets : List dao.AnswerSheet)
    (q : model.Question) (hq : q ∈ questions)
    (hid : ∀ q2 ∈ questions, q2.ID = q.ID → q2 = q) (htype : q.QuestionType = 1) :
    accumulatedTotal (countSheets (buildMaps questions getOptions) sheets) q.ID =
      ((selectedValues q.ID sheets).length : Int) ∧
    (((getOptions q.ID).map (fun o => o.SerialNum)).Nodup →
      (∀ o ∈ getOptions q.ID, o.SerialNum ≠ 0) →
      ((getOptions q.ID).map (fun o =>
          accumulatedCount (countSheets (buildMaps questions getOptions) sheets) q.ID
            o.SerialNum)).sum +
        accumulatedCount (countSheets (buildMaps questions getOptions) sheets) q.ID 0 =
          ((selectedValues q.ID sheets).length : Int)) ∧
    stringsSplit "" = [""] ∧
    (∀ (before after : List dao.AnswerSheet) (s : dao.AnswerSheet)
        (pre post : List dao.Answer) (a : dao.Answer),
      s.Answers = pre ++ a :: post → a.QuestionID = q.ID → a.Content = "" →
      accumulatedTotal
          (countSheets (buildMaps questions getOptions) (before ++ s :: after)) q.ID =
        accumulatedTotal
          (countSheets (buildMaps questions getOptions)
            (before ++ ⟨s.SurveyID, s.Time, s.Unique, pre ++ post⟩ :: after)) q.ID + 1 ∧
      ((∀ o ∈ getOptions q.ID, o.Content ≠ "") →
        accumulatedCount
            (countSheets (buildMaps questions getOptions) (before ++ s :: after)) q.ID 0 =
          accumulatedCount
            (countSheets (buildMaps questions getOptions)
              (before ++ ⟨s.SurveyID, s.Time, s.Unique, pre ++ post⟩ :: after)) q.ID 0 + 1)) := by
  have hmap := (buildMaps_lookup questions getOptions q hq hid).1
  have ht : (GoMap.getD (buildMaps questions getOptions).questionMap q.ID
      model.Question.zero).QuestionType = 1 := by
    unfold GoMap.getD
    rw [hmap]
    exact htype
  have htotal : ∀ ss : List dao.AnswerSheet,
      accumulatedTotal (countSheets (buildMaps questions getOptions) ss) q.ID =
        ((selectedValues q.ID ss).length : Int) := by
    intro ss
    rw [accumulatedTotal_eq_countsSum _ (countsWellFormed_countSheets _ _),
      countsSum_countSheets, if_pos ht]
  have hsplit : stringsSplit "" = [""] := by decide
  refine ⟨htotal sheets, ?_, hsplit, ?_⟩
  · intro hnodup hzero
    have hS : ((0 : Int) :: (getOptions q.ID).map (fun o => o.SerialNum)).Nodup := by
      rw [List.nodup_cons]
      refine ⟨?_, hnodup⟩
      intro h0
      obtain ⟨o, ho, hs0⟩ := List.mem_map.1 h0
      exact hzero o ho hs0
    have hf : ∀ v ∈ selectedValues q.ID sheets,
        voteTarget (buildMaps questions getOptions) q.ID v ∈
          ((0 : Int) :: (getOptions q.ID).map (fun o => o.SerialNum)) := by
      intro v _
      rcases voteTarget_cases questions getOptions q hq hid v with ⟨o, ho, _, hv⟩ | ⟨_, hv⟩
      · rw [hv]
        exact List.mem_cons_of_mem _ (List.mem_map.2 ⟨o, ho, rfl⟩)
      · rw [hv]
        exact List.mem_cons_self _ _
    have hsum := sum_countP_eq_length _ hS
      (voteTarget (buildMaps questions getOptions) q.ID) (selectedValues q.ID sheets) hf
    rw [List.map_cons, List.sum_cons, List.map_map] at hsum
    have hcount : ∀ sn, accumulatedCount (countSheets (buildMaps questions getOptions) sheets)
        q.ID sn = (((selectedValues q.ID sheets).countP
          (fun v => decide (voteTarget (buildMaps questions getOptions) q.ID v = sn)) : Nat) :
            Int) := by
      intro sn
      rw [accumulatedCount_countSheets, if_pos ht]
    rw [hcount 0]
    have hmapeq : (getOptions q.ID).map (fun o =>
        accumulatedCount (countSheets (buildMaps questions getOptions) sheets) q.ID
          o.SerialNum) =
        (getOptions q.ID).map ((fun s => (((selectedValues q.ID sheets).countP
          (fun v => decide (voteTarget (buildMaps questions getOptions) q.ID v = s)) : Nat) :
            Int)) ∘ (fun o => o.SerialNum)) := by
      apply List.map_congr_left
      intro o _
      exact hcount o.SerialNum
    rw [hmapeq]
    omega
  · intro before after s pre post a hs ha hc
    obtain ⟨l1, l2, e1, e2⟩ := selectedValues_insert q.ID before after s pre post a hs ha
    rw [hc, hsplit] at e1
    refine ⟨?_, ?_⟩
    · rw [htotal, htotal, e1, e2]
      simp only [List.length_append, List.length_singleton]
      push_cast
      omega
    · intro hne
      have hv : voteTarget (buildMaps questions getOptions) q.ID "" = 0 := by
        rcases voteTarget_cases questions getOptions q hq hid "" with ⟨o, ho, hoc, _⟩ | ⟨_, hv⟩
        · exact absurd hoc (hne o ho)
        · exact hv
      rw [accumulatedCount_countSheets, accumulatedCount_countSheets, if_pos ht, if_pos ht,
        e1, e2]
      simp only [List.countP_append, List.countP_cons, List.countP_nil, hv, decide_True,
        if_true]
      push_cast
      omega

/-- C11 at the options red and blue (serial numbers 1 and 2) and two sheets answering
"red┋purple" and the empty content: three values, and the counts add up to 3 (red 1, blue 0,
other 2). -/
theorem vote_conservation_witness :
    accumulatedTotal
        (countSheets
          (buildMaps [⟨1, 9, 1, "colour", 1, false⟩]
            (fun _ => [⟨1, 1, "red"⟩, ⟨1, 2, "blue"⟩]))
          [⟨9, "t1", true, [⟨1, 1, "colour", "red┋purple"⟩]⟩,
           ⟨9, "t2", true, [⟨1, 1, "colour", ""⟩]⟩]) 1 = 3 ∧
    accumulatedCount
        (countSheets
          (buildMaps [⟨1, 9, 1, "colour", 1, false⟩]
            (fun _ => [⟨1, 1, "red"⟩, ⟨1, 2, "blue"⟩]))
          [⟨9, "t1", true, [⟨1, 1, "colour", "red┋purple"⟩]⟩,
           ⟨9, "t2", true, [⟨1, 1, "colour", ""⟩]⟩]) 1 0 = 2 :=
  ⟨(vote_conservation [⟨1, 9, 1, "colour", 1, false⟩]
      (fun _ => [⟨1, 1, "red"⟩, ⟨1, 2, "blue"⟩])
      [⟨9, "t1", true, [⟨1, 1, "colour", "red┋purple"⟩]⟩,
       ⟨9, "t2", true, [⟨1, 1, "colour", ""⟩]⟩]
      ⟨1, 9, 1, "colour", 1, false⟩ (by decide) (by decide) rfl).1.trans (by decide),
   by decide⟩

/-! ### Start-time checks -/

/-- C12 on an open survey (status 2, no deadline) whose start time, 200, is set and later than
the current time, 100: `SubmitSurvey` refuses with "填写时间未到" (time not reached) while
`GetSurvey` refuses nothing and goes on to serve the survey. For every survey of status 2 and
all current times, once the deadline check has passed `SubmitSurvey` refuses exactly when the
start time is set and later than the current time, and `GetSurvey` refuses exactly when the
start time is unset and the current time is before the zero instant, so never for a set start
time. -/
theorem getSurvey_start_time_not_checked :
    getSurveyChecks ⟨2, ⟨0⟩, ⟨200⟩⟩ ⟨100⟩ ⟨100⟩ = none ∧
    submitSurveyChecks ⟨2, ⟨0⟩, ⟨200⟩⟩ ⟨100⟩ ⟨100⟩ =
      some ⟨code.Error.TimeBeyondError, "填写时间未到"⟩ ∧
    (∀ deadline start now1 now2 : time.Time,
      submitSurveyChecks ⟨2, deadline, start⟩ now1 now2 =
        if deadline.sinceZero ≠ 0 ∧ deadline.sinceZero < now1.sinceZero then
          some ⟨code.Error.TimeBeyondError, "填写时间已过"⟩
        else if start.sinceZero ≠ 0 ∧ now2.sinceZero < start.sinceZero then
          some ⟨code.Error.TimeBeyondError, "填写时间未到"⟩
        else none) ∧
    (∀ deadline start now1 now2 : time.Time,
      getSurveyChecks ⟨2, deadline, start⟩ now1 now2 =
        if deadline.sinceZero ≠ 0 ∧ deadline.sinceZero < now1.sinceZero then
          some ⟨code.Error.TimeBeyondError, "问卷填写时间已截至"⟩
        else if start.sinceZero = 0 ∧ now2.sinceZero < 0 then
          some ⟨code.Error.SurveyNotOpen, "问卷未开放"⟩
        else none) := by
  refine ⟨by decide, by decide, ?_, ?_⟩
  · intro deadline start now1 now2
    unfold submitSurveyChecks time.Time.IsZero time.Time.Before time.Time.After
    by_cases hd : deadline.sinceZero = 0 <;>
      by_cases hp : deadline.sinceZero < now1.sinceZero <;>
      by_cases h0 : start.sinceZero = 0 <;>
      by_cases h1 : now2.sinceZero < start.sinceZero <;>
      simp [hd, hp, h0, h1]
  · intro deadline start now1 now2
    unfold getSurveyChecks time.Time.IsZero time.Time.Before time.Time.After
    by_cases hd : deadline.sinceZero = 0 <;>
      by_cases hp : deadline.sinceZero < now1.sinceZero <;>
      by_cases h0 : start.sinceZero = 0 <;>
      by_cases h1 : now2.sinceZero < 0 <;>
      simp [hd, hp, h0, h1]
